import Mathlib

/-!
Verification development for the knowledge-assistant FAQ pipeline.

Python strings are modelled as lists of Unicode code points (`PyStr`),
matching Python's `str` semantics where `len`, indexing and slicing work
on code points.  Python `dict`s appearing as FAQ records are modelled as a
structure with the two fields the code reads (`question`, `answer`) plus an
opaque `extra` component standing for all remaining key/value pairs, which
the code only copies around.  Floating-point similarity scores are modelled
as exact rationals: the quantities involved are ratios of small n-gram
counts and the code only compares them with the literal `0.7`.
Case-mapping and character-class predicates (`islower`, `isdigit`, `\w`,
`\d`) are modelled on the character ranges the data actually exercises
(ASCII, plus the Japanese ranges appearing in the regexes); Python's
full Unicode tables agree with the model on those ranges.
-/

set_option maxRecDepth 4000

abbrev PyStr := List Char

/-- The set of characters Python's `str.strip()` and the regex class `\s`
treat as whitespace (`str.isspace`). -/
def isPySpace (c : Char) : Bool :=
  let n := c.toNat
  (9 ≤ n && n ≤ 13) || (28 ≤ n && n ≤ 31) || n == 32 || n == 0x85 || n == 0xA0 ||
  n == 0x1680 || (0x2000 ≤ n && n ≤ 0x200A) || n == 0x2028 || n == 0x2029 ||
  n == 0x202F || n == 0x205F || n == 0x3000

/-- Python `str.strip()`: remove leading and trailing whitespace. -/
def pyStrip (s : PyStr) : PyStr :=
  ((s.dropWhile isPySpace).reverse.dropWhile isPySpace).reverse

/-- Python `s.endswith(t)`. -/
def pyEndsWith (s t : PyStr) : Bool := t.isSuffixOf s

/-- Python `s.startswith(t)`. -/
def pyStartsWith (s t : PyStr) : Bool := t.isPrefixOf s

/-- Index of the first suffix of `l` satisfying `p`, if any. -/
def findSuffixIdx (p : PyStr → Bool) : PyStr → Option Nat
  | [] => if p [] then some 0 else none
  | c :: t => if p (c :: t) then some 0 else (findSuffixIdx p t).map (· + 1)

/-- Index of the first occurrence of `pat` inside `l`, if any
(`str.find` / leftmost regex literal match). -/
def findInfix (l pat : PyStr) : Option Nat :=
  findSuffixIdx (fun suf => pat.isPrefixOf suf) l

/-- Python `t in s` (substring containment). -/
def pyContains (s t : PyStr) : Bool := (findInfix s t).isSome

/-- ASCII fragment of Python's Unicode-aware `str.lower` (the code only
lowercases text that is then searched for Japanese substrings, and Japanese
characters are case-mapping fixed points). -/
def pyToLower (c : Char) : Char :=
  if 65 ≤ c.toNat ∧ c.toNat ≤ 90 then Char.ofNat (c.toNat + 32) else c

/-- ASCII fragment of Python's `str.islower` on a single character. -/
def pyIsLower (c : Char) : Bool := 97 ≤ c.toNat && c.toNat ≤ 122

/-- ASCII fragment of Python's `str.upper` on a single character. -/
def pyToUpper (c : Char) : Char :=
  if pyIsLower c then Char.ofNat (c.toNat - 32) else c

/-- Python `s.split(sep)` for a non-empty separator: split on every
non-overlapping occurrence, scanning left to right, keeping empty pieces.
The fuel argument only bounds the recursion; `s.length + 1` steps always
suffice because every step consumes at least one character. -/
def pySplitGo (sep : PyStr) : Nat → PyStr → List PyStr
  | 0, s => [s]
  | Nat.succ fuel, s =>
    match findInfix s sep with
    | none => [s]
    | some i => s.take i :: pySplitGo sep fuel (s.drop (i + sep.length))

def pySplit (s sep : PyStr) : List PyStr :=
  if sep = [] then [s] else pySplitGo sep (s.length + 1) s

/-- FAQ record: a Python dict with a `question` key, an `answer` key and an
arbitrary remainder (`source_type`, `source_id`, `source_url`, ...) the
post-processor never inspects. -/
structure Faq (α : Type) where
  question : PyStr
  answer : PyStr
  extra : α
deriving DecidableEq, Repr

namespace FAQPostProcessor

/-- The fixed interrogative substrings of `_improve_question`. -/
def questionWords : List PyStr :=
  [("どう").data, ("なぜ").data, ("どこ").data, ("いつ").data,
   ("だれ").data, ("何").data, ("ですか").data]

/-- Terminal punctuation class `[.;,?!]` of the truncation regex. -/
def isDelim (c : Char) : Bool :=
  c == '.' || c == ';' || c == ',' || c == '?' || c == '!'

/-- Model of `re.search(r'^[^.;,?!]+[.;,?!]', s)`: the match exists exactly
when the first character is not terminal punctuation and some terminal
punctuation occurs later; the matched text is everything up to and
including the first terminal punctuation mark. -/
def firstSentence (s : PyStr) : Option PyStr :=
  let pre := s.takeWhile (fun c => !isDelim c)
  if pre = [] then none
  else
    match s.dropWhile (fun c => !isDelim c) with
    | [] => none
    | d :: _ => some (pre ++ [d])

/-- Step of `_improve_question` appending a question mark when missing. -/
def addQuestionMark (improved : PyStr) : PyStr :=
  if !(pyEndsWith improved (("?").data) || pyEndsWith improved (("？").data)) then
    if questionWords.any (fun w => pyContains (improved.map pyToLower) w) then
      improved ++ ("？").data
    else
      improved ++ ("?").data
  else improved

/-- Step of `_improve_question` shortening questions over 100 characters. -/
def shortenQuestion (improved : PyStr) : PyStr :=
  if improved.length > 100 then
    match firstSentence improved with
    | some m => m
    | none => improved.take 97 ++ ("...").data
  else improved

/-- Step of `_improve_question` uppercasing a lowercase first character. -/
def capitalizeFirst (improved : PyStr) : PyStr :=
  match improved with
  | [] => []
  | c :: rest => if pyIsLower c then pyToUpper c :: rest else c :: rest

/-- `FAQPostProcessor._improve_question`. -/
def improve_question (question : PyStr) : PyStr :=
  if question = [] ∨ pyStrip question = [] then ("不明な質問").data
  else capitalizeFirst (shortenQuestion (addQuestionMark (pyStrip question)))

/-- The fixed source-reference terms of `_improve_answer`. -/
def refTerms : List PyStr :=
  [("参照").data, ("詳細は").data, ("マニュアル").data,
   ("ドキュメント").data, ("スレッド").data, ("会話").data]

/-- The leading acknowledgment tokens of the `re.sub` in `_improve_answer`. -/
def ackWords : List PyStr :=
  [("はい").data, ("いいえ").data, ("Yes").data, ("No").data]

/-- Separator class `(、|\.|,|\s)` following an acknowledgment token. -/
def isAckSep (c : Char) : Bool :=
  c == '、' || c == '.' || c == ',' || isPySpace c

/-- Model of `re.sub(r'^(はい|いいえ|Yes|No)(、|\.|,|\s)', '', s)`: the
pattern is anchored, so at most one occurrence is removed; the four
alternatives start with distinct characters, so at most one can match. -/
def stripAck (s : PyStr) : PyStr :=
  match ackWords.find? (fun w =>
      pyStartsWith s w &&
      (match s.drop w.length with
       | c :: _ => isAckSep c
       | [] => false)) with
  | some w => s.drop (w.length + 1)
  | none => s

/-- Character class `[a-zA-Z0-9]` of the terminator regex. -/
def isAsciiAlnum (c : Char) : Bool :=
  (48 ≤ c.toNat && c.toNat ≤ 57) || (65 ≤ c.toNat && c.toNat ≤ 90) ||
  (97 ≤ c.toNat && c.toNat ≤ 122)

/-- Character class `[ぁ-んァ-ン一-龯々]` of the terminator regex. -/
def isJapaneseEnd (c : Char) : Bool :=
  (0x3041 ≤ c.toNat && c.toNat ≤ 0x3093) ||
  (0x30A1 ≤ c.toNat && c.toNat ≤ 0x30F3) ||
  (0x4E00 ≤ c.toNat && c.toNat ≤ 0x9FAF) || c.toNat == 0x3005

/-- Step of `_improve_answer` appending a sentence terminator. -/
def addTerminator (improved : PyStr) : PyStr :=
  if !(pyEndsWith improved ((".").data) || pyEndsWith improved (("。").data)) then
    if (match improved.getLast? with
        | some c => isAsciiAlnum c
        | none => false) then improved ++ (".").data
    else if (match improved.getLast? with
        | some c => isJapaneseEnd c
        | none => false) then improved ++ ("。").data
    else improved
  else improved

/-- Truthiness of the optional `source_url` argument (`None` and the empty
string are falsy). -/
def urlTruthy : Option PyStr → Bool
  | none => false
  | some u => u ≠ []

/-- The appended source-reference sentence, including the
`source_type`-dependent noun. -/
def refSentence (source_type : PyStr) : PyStr :=
  ("\n\n詳細については元の").data ++
  (if source_type = ("pdf").data then ("ドキュメント").data else ("Slack会話").data) ++
  ("を参照してください。").data

/-- Step of `_improve_answer` appending the source reference. -/
def addSourceRef (source_type : PyStr) (source_url : Option PyStr)
    (improved : PyStr) : PyStr :=
  if urlTruthy source_url && !(refTerms.any (fun r => pyContains improved r)) then
    improved ++ refSentence source_type
  else improved

/-- The fallback answer for blank input. -/
def ansSentinel : PyStr := ("回答が見つかりませんでした。").data

/-- `FAQPostProcessor._improve_answer`. -/
def improve_answer (answer source_type : PyStr) (source_url : Option PyStr) : PyStr :=
  if answer = [] ∨ pyStrip answer = [] then ansSentinel
  else addSourceRef source_type source_url (addTerminator (stripAck (pyStrip answer)))

/-- The per-entry loop of `process`: entries whose `question` or `answer`
is the empty string are skipped, the rest are normalized with the
remaining dict fields copied unchanged (`{**faq, ...}`). -/
def processLoop {α : Type} (source_type : PyStr) (source_url : Option PyStr) :
    List (Faq α) → List (Faq α)
  | [] => []
  | f :: rest =>
    if f.question = [] ∨ f.answer = [] then processLoop source_type source_url rest
    else
      { f with question := improve_question f.question,
               answer := improve_answer f.answer source_type source_url } ::
        processLoop source_type source_url rest

/-- n-grams of `_calculate_similarity`:
`[text[i:i+n] for i in range(len(text) - n + 1) if i+n <= len(text)]`.
`len - n + 1` is evaluated in ℤ in Python; over ℕ, `len + 1 - n` together
with the (in Python redundant) guard `i + n <= len` yields the same range. -/
def get_ngrams (text : PyStr) (n : Nat) : List PyStr :=
  ((List.range (text.length + 1 - n)).filter (fun i => i + n ≤ text.length)).map
    (fun i => (text.drop i).take n)

/-- `FAQPostProcessor._calculate_similarity`: 3-gram Jaccard similarity.
Python's float division is modelled as exact rational division; the code
only compares the result with `0.7`, and the counts arising from n-gram
sets are far below the scale at which double rounding could cross that
threshold. -/
def calculate_similarity (text1 text2 : PyStr) : ℚ :=
  let ngrams1 := (get_ngrams text1 3).dedup
  let ngrams2 := (get_ngrams text2 3).dedup
  let intersection := (ngrams1.filter (fun g => g ∈ ngrams2)).length
  let union := ngrams1.length + (ngrams2.filter (fun g => g ∉ ngrams1)).length
  if union = 0 then 0 else mkRat (Int.ofNat intersection) union

/-- One step of the `for existing_q in processed_questions.keys()` loop:
state is `(is_duplicate, best_match, highest_similarity)`. -/
def simScan (question : PyStr) :
    List (PyStr × Nat) → (Bool × Option PyStr × ℚ) → (Bool × Option PyStr × ℚ)
  | [], st => st
  | kv :: rest, st =>
    let similarity := calculate_similarity question kv.1
    if similarity > mkRat 7 10 then
      if similarity > st.2.2 then simScan question rest (true, some kv.1, similarity)
      else simScan question rest (true, st.2.1, st.2.2)
    else simScan question rest st

/-- Insertion into the `processed_questions` dict: an existing key keeps
its position and gets the new value, a new key is appended. -/
def dictInsert : List (PyStr × Nat) → PyStr → Nat → List (PyStr × Nat)
  | [], k, v => [(k, v)]
  | kv :: rest, k, v =>
    if kv.1 = k then (kv.1, v) :: rest else kv :: dictInsert rest k v

/-- The body of the `for faq in faqs` loop of `_remove_duplicates`.
State: the insertion-ordered `processed_questions` dict and `unique_faqs`.
The `none` fallbacks model `KeyError`/`IndexError` paths that cannot occur
because the dict always maps an existing question to a valid index. -/
def dedupStep {α : Type} (acc : List (PyStr × Nat) × List (Faq α)) (faq : Faq α) :
    List (PyStr × Nat) × List (Faq α) :=
  let scan := simScan faq.question acc.1 (false, none, 0)
  match scan.1, scan.2.1 with
  | true, some bm =>
    if bm ≠ [] then
      -- duplicate: merge into the best previous record, keep the longer answer
      match List.lookup bm acc.1 with
      | some idx =>
        match acc.2.get? idx with
        | some ex =>
          if faq.answer.length > ex.answer.length then
            (acc.1, acc.2.set idx { ex with answer := faq.answer })
          else (acc.1, acc.2)
        | none => (acc.1, acc.2)
      | none => (acc.1, acc.2)
    else (dictInsert acc.1 faq.question acc.2.length, acc.2 ++ [faq])
  | _, _ => (dictInsert acc.1 faq.question acc.2.length, acc.2 ++ [faq])

def removeDupGo {α : Type} :
    List (Faq α) → List (PyStr × Nat) × List (Faq α) → List (PyStr × Nat) × List (Faq α)
  | [], st => st
  | f :: rest, st => removeDupGo rest (dedupStep st f)

/-- `FAQPostProcessor._remove_duplicates`. -/
def remove_duplicates {α : Type} (faqs : List (Faq α)) : List (Faq α) :=
  match faqs with
  | [] => []
  | _ => (removeDupGo faqs ([], [])).2

/-- `FAQPostProcessor.process`. -/
def process {α : Type} (faqs : List (Faq α)) (source_type : PyStr)
    (source_url : Option PyStr) : List (Faq α) :=
  match faqs with
  | [] => []
  | _ => remove_duplicates (processLoop source_type source_url faqs)

end FAQPostProcessor

namespace LLMOutputParser

def backticksLit : PyStr := ("```").data
def jsonTagLit : PyStr := ("json").data
def fencedJsonLit : PyStr := ("```json").data

/-- Model of the first match of `re.findall(r'```(?:json)?\s*([\s\S]*?)\s*```', text)`.
A match must start at a literal fence; the first fence that is followed by
another fence yields the match, and if the first fence has no closing fence
no later one does either (any later closing fence would also close the
first).  The lazy group together with the greedy `\s*` borders captures the
text strictly between the fences with surrounding whitespace trimmed; since
the caller strips the result again, returning the raw text between the
fences is equivalent. -/
def fenceMatch (text : PyStr) : Option PyStr :=
  match findInfix text backticksLit with
  | none => none
  | some i =>
    let rest := text.drop (i + 3)
    let rest2 := if pyStartsWith rest jsonTagLit then rest.drop 4 else rest
    match findInfix rest2 backticksLit with
    | none => none
    | some j => some (rest2.take j)

/-- `\s*']'` at the end of the array pattern: the whitespace run after `}`
must be followed directly by `]`; returns the number of consumed characters. -/
def wsThenRBracketLen (l : PyStr) : Option Nat :=
  let t := l.takeWhile isPySpace
  match l.drop t.length with
  | ']' :: _ => some (t.length + 1)
  | _ => none

/-- The greedy `.*` of `re.search(r'\[\s*\{.*\}\s*\]', text, re.DOTALL)`:
the last `}` in `body` that is followed by whitespace and `]`. -/
def lastGoodRBrace (body : PyStr) : Option (Nat × Nat) :=
  match ((List.range body.length).filter (fun q =>
      match body.drop q with
      | '}' :: tail => (wsThenRBracketLen tail).isSome
      | _ => false)).getLast? with
  | none => none
  | some q =>
    match body.drop q with
    | '}' :: tail => (wsThenRBracketLen tail).map (fun w => (q, w))
    | _ => none

/-- Attempt of the array pattern at one position (which must hold `[`). -/
def tryArrayAt : PyStr → Option PyStr
  | '[' :: after =>
    let ws := after.takeWhile isPySpace
    (match after.drop ws.length with
     | '{' :: body =>
       (match lastGoodRBrace body with
        | some qw => some ('[' :: (ws ++ '{' :: body.take (qw.1 + 1 + qw.2)))
        | none => none)
     | _ => none)
  | _ => none

/-- `re.search` scans left to right for the first position where the
pattern matches. -/
def arraySearchGo : PyStr → Option PyStr
  | [] => none
  | c :: t =>
    match tryArrayAt (c :: t) with
    | some m => some m
    | none => arraySearchGo t

def arraySearch (text : PyStr) : Option PyStr := arraySearchGo text

/-- `LLMOutputParser.extract_json_from_markdown`. -/
def extract_json_from_markdown (text : PyStr) : PyStr :=
  match fenceMatch text with
  | some m => pyStrip m
  | none =>
    if pyContains text (("[").data) && pyContains text (("]").data) then
      match arraySearch text with
      | some m => m
      | none => text
    else text

def cotMarker : PyStr := ("思考過程").data
def cotSplitSep : PyStr := ("思考過程:").data
def obtainMarker : PyStr := ("得られます").data

/-- Step 1 of `parse_faq_response`: initial payload extraction. -/
def payloadStep1 (llm_response : PyStr) : PyStr :=
  extract_json_from_markdown llm_response

/-- The chain-of-thought re-extraction step of `parse_faq_response`. -/
def payloadStep2 (llm_response : PyStr) : PyStr :=
  let json_text := payloadStep1 llm_response
  if pyContains llm_response cotMarker && !(pyContains json_text fencedJsonLit) then
    match pySplit llm_response cotSplitSep with
    | _ :: p1 :: _ => extract_json_from_markdown p1
    | _ => json_text
  else json_text

/-- The 6-character pattern `得られます[：:]` of the `re.split`. -/
def obtainPat (l : PyStr) : Bool :=
  pyStartsWith l obtainMarker &&
  (match l.drop 5 with
   | c :: _ => c == '：' || c == ':'
   | [] => false)

def splitObtainGo : Nat → PyStr → List PyStr
  | 0, s => [s]
  | Nat.succ fuel, s =>
    match findSuffixIdx obtainPat s with
    | none => [s]
    | some i => s.take i :: splitObtainGo fuel (s.drop (i + 6))

def splitObtain (s : PyStr) : List PyStr := splitObtainGo (s.length + 1) s

/-- The "is obtained" re-extraction step of `parse_faq_response`. -/
def payloadStep3 (llm_response : PyStr) : PyStr :=
  let json_text := payloadStep2 llm_response
  if pyContains llm_response obtainMarker && !(pyContains json_text fencedJsonLit) then
    match splitObtain llm_response with
    | _ :: p1 :: _ => extract_json_from_markdown p1
    | _ => json_text
  else json_text

/-- The candidate payload handed to `json.loads`. -/
def faqPayload (llm_response : PyStr) : PyStr := payloadStep3 llm_response

/-- JSON values as produced by `json.loads`.  Numbers keep their source
lexeme: the pipeline never reads a numeric value, only the shape. -/
inductive Json where
  | null : Json
  | bool (b : Bool) : Json
  | num (raw : PyStr) : Json
  | str (s : PyStr) : Json
  | arr (elems : List Json) : Json
  | obj (members : List (PyStr × Json)) : Json
deriving Repr

/-- JSON inter-token whitespace (`json.decoder.WHITESPACE`). -/
def jsonSkipWs (s : PyStr) : PyStr :=
  s.dropWhile (fun c => c == ' ' || c == '\t' || c == '\n' || c == '\r')

def hexVal (c : Char) : Option Nat :=
  let n := c.toNat
  if 48 ≤ n ∧ n ≤ 57 then some (n - 48)
  else if 65 ≤ n ∧ n ≤ 70 then some (n - 55)
  else if 97 ≤ n ∧ n ≤ 102 then some (n - 87)
  else none

/-- JSON string body after the opening quote, strict mode: raw control
characters and unknown escapes are errors; `\uXXXX` escapes combine
surrogate pairs.  (Python can keep a lone surrogate in a `str`; a Lean
`Char` cannot, so a lone surrogate degrades to `Char.ofNat`'s fallback —
the pipeline only ever inspects the ASCII key names.) -/
def parseStringBodyGo : Nat → PyStr → Option (PyStr × PyStr)
  | 0, _ => none
  | Nat.succ _, [] => none
  | Nat.succ fuel, c :: rest =>
    if c = '"' then some ([], rest)
    else if c = '\\' then
      match rest with
      | [] => none
      | e :: rest2 =>
        if e = '"' then (parseStringBodyGo fuel rest2).map (fun p => ('"' :: p.1, p.2))
        else if e = '\\' then (parseStringBodyGo fuel rest2).map (fun p => ('\\' :: p.1, p.2))
        else if e = '/' then (parseStringBodyGo fuel rest2).map (fun p => ('/' :: p.1, p.2))
        else if e = 'b' then (parseStringBodyGo fuel rest2).map (fun p => ('\x08' :: p.1, p.2))
        else if e = 'f' then (parseStringBodyGo fuel rest2).map (fun p => ('\x0C' :: p.1, p.2))
        else if e = 'n' then (parseStringBodyGo fuel rest2).map (fun p => ('\n' :: p.1, p.2))
        else if e = 'r' then (parseStringBodyGo fuel rest2).map (fun p => ('\r' :: p.1, p.2))
        else if e = 't' then (parseStringBodyGo fuel rest2).map (fun p => ('\t' :: p.1, p.2))
        else if e = 'u' then
          match rest2 with
          | h1 :: h2 :: h3 :: h4 :: rest3 =>
            match hexVal h1, hexVal h2, hexVal h3, hexVal h4 with
            | some a, some b, some c3, some d =>
              let n := ((a * 16 + b) * 16 + c3) * 16 + d
              if 0xD800 ≤ n ∧ n ≤ 0xDBFF then
                match rest3 with
                | '\\' :: 'u' :: g1 :: g2 :: g3 :: g4 :: rest4 =>
                  (match hexVal g1, hexVal g2, hexVal g3, hexVal g4 with
                   | some a2, some b2, some c2, some d2 =>
                     let m := ((a2 * 16 + b2) * 16 + c2) * 16 + d2
                     if 0xDC00 ≤ m ∧ m ≤ 0xDFFF then
                       (parseStringBodyGo fuel rest4).map (fun p =>
                         (Char.ofNat (0x10000 + (n - 0xD800) * 0x400 + (m - 0xDC00)) :: p.1, p.2))
                     else (parseStringBodyGo fuel rest3).map (fun p => (Char.ofNat n :: p.1, p.2))
                   | _, _, _, _ => (parseStringBodyGo fuel rest3).map (fun p => (Char.ofNat n :: p.1, p.2)))
                | _ => (parseStringBodyGo fuel rest3).map (fun p => (Char.ofNat n :: p.1, p.2))
              else (parseStringBodyGo fuel rest3).map (fun p => (Char.ofNat n :: p.1, p.2))
            | _, _, _, _ => none
          | _ => none
        else none
    else if c.toNat < 0x20 then none
    else (parseStringBodyGo fuel rest).map (fun p => (c :: p.1, p.2))

/-- JSON string body after the opening quote; every step consumes at
least one character, so `length + 1` fuel always suffices. -/
def parseStringBody (s : PyStr) : Option (PyStr × PyStr) :=
  parseStringBodyGo (s.length + 1) s

def digitsRun (s : PyStr) : PyStr := s.takeWhile (fun c => 48 ≤ c.toNat && c.toNat ≤ 57)

/-- Integer part of `json`'s `NUMBER_RE`: `(-?(?:0|[1-9]\d*))` without sign. -/
def parseIntPart (s : PyStr) : Option (PyStr × PyStr) :=
  match s with
  | [] => none
  | '0' :: rest => some (['0'], rest)
  | c :: _ =>
    if 49 ≤ c.toNat ∧ c.toNat ≤ 57 then
      let run := digitsRun s
      some (run, s.drop run.length)
    else none

/-- Fraction part `(\.\d+)?`. -/
def parseFracPart (s : PyStr) : PyStr × PyStr :=
  match s with
  | '.' :: rest =>
    let run := digitsRun rest
    if run = [] then ([], s) else ('.' :: run, rest.drop run.length)
  | _ => ([], s)

/-- Exponent part `([eE][-+]?\d+)?`. -/
def parseExpPart (s : PyStr) : PyStr × PyStr :=
  match s with
  | e :: rest =>
    if e = 'e' ∨ e = 'E' then
      match rest with
      | sgn :: rest2 =>
        if sgn = '+' ∨ sgn = '-' then
          (let run := digitsRun rest2
           if run = [] then ([], e :: rest) else (e :: sgn :: run, rest2.drop run.length))
        else
          (let run := digitsRun rest
           if run = [] then ([], e :: rest) else (e :: run, rest.drop run.length))
      | [] => ([], [e])
    else ([], e :: rest)
  | [] => ([], [])

def parseNumber (s : PyStr) : Option (PyStr × PyStr) :=
  let sign : PyStr × PyStr :=
    match s with
    | '-' :: rest => (['-'], rest)
    | _ => ([], s)
  match parseIntPart sign.2 with
  | none => none
  | some ir =>
    let fr := parseFracPart ir.2
    let er := parseExpPart fr.2
    some (sign.1 ++ ir.1 ++ fr.1 ++ er.1, er.2)

/-- Last-wins insertion that keeps the first position, like assignment
into a Python dict. -/
def objInsert : List (PyStr × Json) → PyStr × Json → List (PyStr × Json)
  | [], kv => [kv]
  | m :: rest, kv => if m.1 = kv.1 then (m.1, kv.2) :: rest else m :: objInsert rest kv

mutual

/-- `json.loads` value scanner.  The fuel only bounds the recursion depth:
every constructor either fails or consumes input, so `4 * length + 8`
steps always suffice and fuel exhaustion is unreachable on any input. -/
def parseValue : Nat → PyStr → Option (Json × PyStr)
  | 0, _ => none
  | Nat.succ fuel, s =>
    let s1 := jsonSkipWs s
    match s1 with
    | '{' :: rest => parseMembersStart fuel rest
    | '[' :: rest => parseElemsStart fuel rest
    | '"' :: rest => (parseStringBody rest).map (fun p => (Json.str p.1, p.2))
    | _ =>
      if pyStartsWith s1 (("true").data) then some (Json.bool true, s1.drop 4)
      else if pyStartsWith s1 (("false").data) then some (Json.bool false, s1.drop 5)
      else if pyStartsWith s1 (("null").data) then some (Json.null, s1.drop 4)
      else if pyStartsWith s1 (("NaN").data) then some (Json.num (("NaN").data), s1.drop 3)
      else if pyStartsWith s1 (("Infinity").data) then
        some (Json.num (("Infinity").data), s1.drop 8)
      else if pyStartsWith s1 (("-Infinity").data) then
        some (Json.num (("-Infinity").data), s1.drop 9)
      else (parseNumber s1).map (fun p => (Json.num p.1, p.2))

def parseElemsStart : Nat → PyStr → Option (Json × PyStr)
  | 0, _ => none
  | Nat.succ fuel, s =>
    match jsonSkipWs s with
    | ']' :: rest => some (Json.arr [], rest)
    | _ =>
      match parseValue fuel s with
      | none => none
      | some vr => parseElemsRest fuel [vr.1] vr.2

def parseElemsRest : Nat → List Json → PyStr → Option (Json × PyStr)
  | 0, _, _ => none
  | Nat.succ fuel, accum, s =>
    match jsonSkipWs s with
    | ',' :: rest =>
      (match parseValue fuel rest with
       | none => none
       | some vr => parseElemsRest fuel (accum ++ [vr.1]) vr.2)
    | ']' :: rest => some (Json.arr accum, rest)
    | _ => none

def parseMember : Nat → PyStr → Option ((PyStr × Json) × PyStr)
  | 0, _ => none
  | Nat.succ fuel, s =>
    match jsonSkipWs s with
    | '"' :: rest =>
      (match parseStringBody rest with
       | none => none
       | some kr =>
         match jsonSkipWs kr.2 with
         | ':' :: r3 =>
           (match parseValue fuel r3 with
            | none => none
            | some vr => some ((kr.1, vr.1), vr.2))
         | _ => none)
    | _ => none

def parseMembersStart : Nat → PyStr → Option (Json × PyStr)
  | 0, _ => none
  | Nat.succ fuel, s =>
    match jsonSkipWs s with
    | '}' :: rest => some (Json.obj [], rest)
    | _ =>
      match parseMember fuel s with
      | none => none
      | some kvr => parseMembersRest fuel (objInsert [] kvr.1) kvr.2

def parseMembersRest : Nat → List (PyStr × Json) → PyStr → Option (Json × PyStr)
  | 0, _, _ => none
  | Nat.succ fuel, accum, s =>
    match jsonSkipWs s with
    | ',' :: rest =>
      (match parseMember fuel rest with
       | none => none
       | some kvr => parseMembersRest fuel (objInsert accum kvr.1) kvr.2)
    | '}' :: rest => some (Json.obj accum, rest)
    | _ => none

end

/-- `json.loads`: parse one value and require only whitespace after it. -/
def jsonLoads (s : PyStr) : Option Json :=
  match parseValue (4 * s.length + 8) s with
  | none => none
  | some vr => if jsonSkipWs vr.2 = [] then some vr.1 else none

def hasKey (members : List (PyStr × Json)) (k : PyStr) : Bool :=
  members.any (fun kv => kv.1 == k)

/-- `isinstance(faq, dict) and "question" in faq and "answer" in faq`. -/
def isFaqDict : Json → Bool
  | Json.obj members =>
    hasKey members (("question").data) && hasKey members (("answer").data)
  | _ => false

/-- `LLMOutputParser.parse_faq_response`.  The whole Python body runs under
`try/except`; the two `[]` fallbacks are the `except` handler reached by
the `json.loads` error and the explicit `ValueError` for a non-list value. -/
def parse_faq_response (llm_response : PyStr) : List Json :=
  match jsonLoads (faqPayload llm_response) with
  | none => []
  | some (Json.arr faqs) => faqs.filter isFaqDict
  | some _ => []

end LLMOutputParser

namespace PDFProcessor

/-- A chunk dict `{page_num, text, char_count}` as built by `extract_text`
and `_split_into_chunks`. -/
structure Chunk where
  page_num : Nat
  text : PyStr
  char_count : Nat
deriving DecidableEq, Repr

def mkChunk (pn : Nat) (t : PyStr) : Chunk := ⟨pn, t, t.length⟩

def paraSep : PyStr := ("\n\n").data
def spaceSep : PyStr := (" ").data

/-- The inner `for word in words` loop; returns the updated
`(result_chunks, current_chunk)`. -/
def wordLoop (pn maxSize : Nat) : List PyStr → PyStr → List Chunk → List Chunk × PyStr
  | [], cur, acc => (acc, cur)
  | w :: ws, cur, acc =>
    if cur.length + w.length + 1 ≤ maxSize then
      wordLoop pn maxSize ws (if cur = [] then w else cur ++ spaceSep ++ w) acc
    else
      wordLoop pn maxSize ws w (acc ++ [mkChunk pn cur])

/-- The `for para in paragraphs` loop. -/
def paraLoop (pn maxSize : Nat) : List PyStr → PyStr → List Chunk → List Chunk × PyStr
  | [], cur, acc => (acc, cur)
  | para :: ps, cur, acc =>
    if cur.length + para.length + 2 ≤ maxSize then
      paraLoop pn maxSize ps (if cur = [] then para else cur ++ paraSep ++ para) acc
    else
      let acc1 := if cur = [] then acc else acc ++ [mkChunk pn cur]
      if para.length > maxSize then
        let r := wordLoop pn maxSize (pySplit para spaceSep) [] acc1
        paraLoop pn maxSize ps r.2 r.1
      else
        paraLoop pn maxSize ps para acc1

/-- The chunks contributed by one page. -/
def splitPage (maxSize : Nat) (pg : Chunk) : List Chunk :=
  if pg.text.length ≤ maxSize then [mkChunk pg.page_num pg.text]
  else
    let r := paraLoop pg.page_num maxSize (pySplit pg.text paraSep) [] []
    if r.2 = [] then r.1 else r.1 ++ [mkChunk pg.page_num r.2]

def splitGo (maxSize : Nat) : List Chunk → List Chunk → List Chunk
  | [], acc => acc
  | pg :: rest, acc => splitGo maxSize rest (acc ++ splitPage maxSize pg)

/-- `PDFProcessor._split_into_chunks` (Python default `max_chunk_size=1000`). -/
def split_into_chunks (page_chunks : List Chunk) (max_chunk_size : Nat) : List Chunk :=
  splitGo max_chunk_size page_chunks []

end PDFProcessor

def isAsciiDigit (c : Char) : Bool := 48 ≤ c.toNat && c.toNat ≤ 57

/-- Python `str.isdigit()` on the ranges this corpus can contain: ASCII
digits, full-width digits, and circled digits (`'①'.isdigit()` is true). -/
def pyIsDigit (c : Char) : Bool :=
  let n := c.toNat
  (48 ≤ n && n ≤ 57) || (0xFF10 ≤ n && n ≤ 0xFF19) || (0x2460 ≤ n && n ≤ 0x2473)

/-- The regex class `\d` (Unicode decimal digits; circled digits are not
decimal digits): ASCII and full-width forms. -/
def isRegexDigit (c : Char) : Bool :=
  (48 ≤ c.toNat && c.toNat ≤ 57) || (0xFF10 ≤ c.toNat && c.toNat ≤ 0xFF19)

/-- Model of the regex class `\w` on the scripts this corpus uses
(ASCII alphanumerics, underscore, kana, CJK ideographs, full-width forms). -/
def isWordChar (c : Char) : Bool :=
  let n := c.toNat
  (48 ≤ n && n ≤ 57) || (65 ≤ n && n ≤ 90) || (97 ≤ n && n ≤ 122) || n == 95 ||
  (0x3041 ≤ n && n ≤ 0x3096) || (0x30A1 ≤ n && n ≤ 0x30FA) || n == 0x30FC ||
  (0x4E00 ≤ n && n ≤ 0x9FFF) ||
  (0xFF10 ≤ n && n ≤ 0xFF19) || (0xFF21 ≤ n && n ≤ 0xFF3A) || (0xFF41 ≤ n && n ≤ 0xFF5A)

/-- `[①-⑩]`. -/
def isCircledDigit (c : Char) : Bool := 0x2460 ≤ c.toNat && c.toNat ≤ 0x2469

/-- `[ァ-ヶー]`. -/
def isKatakanaCh (c : Char) : Bool :=
  (0x30A1 ≤ c.toNat && c.toNat ≤ 0x30F6) || c.toNat == 0x30FC

/-- `[一-龯々]`. -/
def isKanjiCh (c : Char) : Bool :=
  (0x4E00 ≤ c.toNat && c.toNat ≤ 0x9FAF) || c.toNat == 0x3005

/-- Set modelled as an insertion-ordered duplicate-free list (Python's
`set` iteration order is unspecified; the enhanced-text block only lists
elements, and no claim depends on their order). -/
def addTerm (terms : List PyStr) (t : PyStr) : List PyStr :=
  if t ∈ terms then terms else terms ++ [t]

def addTerms (terms : List PyStr) : List PyStr → List PyStr
  | [] => terms
  | t :: rest => addTerms (addTerm terms t) rest

namespace PDFTextProcessor

/-- The result dict of `PDFTextProcessor.process`. -/
structure PdfReport where
  original_text : PyStr
  headers : List PyStr
  bullet_points : List PyStr
  important_terms : List PyStr
  enhanced_text : PyStr
deriving Repr

/-- `\s*\w` after a heading marker (whitespace and word characters are
disjoint, so the greedy skip is deterministic). -/
def wsThenWord (s : PyStr) : Bool :=
  match s.dropWhile isPySpace with
  | c :: _ => isWordChar c
  | [] => false

/-- `re.match(r'^\s*(\d+\.|\d+\-|\d+:|第\d+章|[①-⑩]\.)\s*\w+', line)`. -/
def headerPatMatch (line : PyStr) : Bool :=
  let s := line.dropWhile isPySpace
  match s with
  | [] => false
  | c :: rest =>
    if isRegexDigit c then
      (let run := s.takeWhile isRegexDigit
       match s.drop run.length with
       | p :: rest2 => (p == '.' || p == '-' || p == ':') && wsThenWord rest2
       | [] => false)
    else if c == '第' then
      (let run := rest.takeWhile isRegexDigit
       run ≠ [] &&
       (match rest.drop run.length with
        | '章' :: rest2 => wsThenWord rest2
        | _ => false))
    else if isCircledDigit c then
      (match rest with
       | '.' :: rest2 => wsThenWord rest2
       | _ => false)
    else false

/-- `\s+\w` after a bullet marker. -/
def wsPlusWord (s : PyStr) : Bool :=
  let run := s.takeWhile isPySpace
  run ≠ [] &&
  (match s.drop run.length with
   | c :: _ => isWordChar c
   | [] => false)

/-- `re.compile(r'^\s*([•\-\*・]|\d+\.|[①-⑩]\.?)\s+\w+').match(line)`.
For a circled digit followed by `.`, backtracking into the dot-less
alternative cannot help, because `\s+` can never match the `.`. -/
def bulletMatch (line : PyStr) : Bool :=
  let s := line.dropWhile isPySpace
  match s with
  | [] => false
  | c :: rest =>
    if c == '•' || c == '-' || c == '*' || c == '・' then wsPlusWord rest
    else if isRegexDigit c then
      (let run := s.takeWhile isRegexDigit
       match s.drop run.length with
       | '.' :: rest2 => wsPlusWord rest2
       | _ => false)
    else if isCircledDigit c then
      (match rest with
       | '.' :: rest2 => wsPlusWord rest2
       | _ => wsPlusWord rest)
    else false

/-- The header condition of step 1, with every partial indexing operation
(`lines[i+1]`, `strip()[0]`, `strip()[-1]`) modelled as an `Option`
access: a `none` would be an uncaught `IndexError` inside the `try`. -/
def headerCond1 (lines : List PyStr) (i : Nat) (line : PyStr) : Option Bool :=
  if (pyStrip line).length < 50 ∧ pyStrip line ≠ [] then
    if i + 1 < lines.length then
      match lines.get? (i + 1) with
      | none => none
      | some nxt =>
        match (if pyStrip nxt = [] then some true
               else
                 match (pyStrip nxt).head? with
                 | none => none
                 | some c => some (pyIsDigit c)) with
        | none => none
        | some b =>
          if b then
            match (pyStrip line).getLast? with
            | none => none
            | some lc => some (!(lc == ',' || lc == '.' || lc == '、' || lc == '。'))
          else some false
    else some false
  else some false

/-- The `for i, line in enumerate(lines)` loop of step 1; a line can be
appended by both header tests. -/
def headersGo (lines : List PyStr) : Nat → List PyStr → Option (List PyStr)
  | _, [] => some []
  | i, line :: rest =>
    match headerCond1 lines i line with
    | none => none
    | some c1 =>
      match headersGo lines (i + 1) rest with
      | none => none
      | some tail =>
        some ((if c1 then [pyStrip line] else []) ++
              (if headerPatMatch line then [pyStrip line] else []) ++ tail)

/-- `re.findall(r'「([^」]{2,})」|"([^"]{2,})"', text)`: scan left to
right; on a failed opening quote the engine advances one character. -/
def quotedScan : Nat → PyStr → List PyStr
  | 0, _ => []
  | Nat.succ fuel, s =>
    match s with
    | [] => []
    | c :: rest =>
      if c = '「' then
        (match findInfix rest (("」").data) with
         | some k =>
           if 2 ≤ k then rest.take k :: quotedScan fuel (rest.drop (k + 1))
           else quotedScan fuel rest
         | none => quotedScan fuel rest)
      else if c = '"' then
        (match findInfix rest (("\"").data) with
         | some k =>
           if 2 ≤ k then rest.take k :: quotedScan fuel (rest.drop (k + 1))
           else quotedScan fuel rest
         | none => quotedScan fuel rest)
      else quotedScan fuel rest

/-- `re.findall(r'[ァ-ヶー]+[一-龯々]+|[一-龯々]+[ァ-ヶー]+', text)`: the two
character classes are disjoint, so greedy runs need no backtracking. -/
def compoundScan : Nat → PyStr → List PyStr
  | 0, _ => []
  | Nat.succ fuel, s =>
    match s with
    | [] => []
    | c :: t =>
      if isKatakanaCh c then
        (let kr := (c :: t).takeWhile isKatakanaCh
         let after := (c :: t).drop kr.length
         let jr := after.takeWhile isKanjiCh
         if jr ≠ [] then (kr ++ jr) :: compoundScan fuel (after.drop jr.length)
         else compoundScan fuel t)
      else if isKanjiCh c then
        (let jr := (c :: t).takeWhile isKanjiCh
         let after := (c :: t).drop jr.length
         let kr := after.takeWhile isKatakanaCh
         if kr ≠ [] then (jr ++ kr) :: compoundScan fuel (after.drop kr.length)
         else compoundScan fuel t)
      else compoundScan fuel t

/-- `re.findall(r'\*\*([^*]+)\*\*|\*([^*]+)\*|__([^_]+)__|_([^_]+)_', text)`. -/
def emphasisScan : Nat → PyStr → List PyStr
  | 0, _ => []
  | Nat.succ fuel, s =>
    match s with
    | [] => []
    | '*' :: rest =>
      (match rest with
       | '*' :: rest2 =>
         let run := rest2.takeWhile (fun c => c ≠ '*')
         (if run ≠ [] then
            match rest2.drop run.length with
            | '*' :: '*' :: rest3 => run :: emphasisScan fuel rest3
            | _ => emphasisScan fuel rest
          else emphasisScan fuel rest)
       | _ =>
         let run := rest.takeWhile (fun c => c ≠ '*')
         (if run ≠ [] then
            match rest.drop run.length with
            | '*' :: rest3 => run :: emphasisScan fuel rest3
            | _ => emphasisScan fuel rest
          else emphasisScan fuel rest))
    | '_' :: rest =>
      (match rest with
       | '_' :: rest2 =>
         let run := rest2.takeWhile (fun c => c ≠ '_')
         (if run ≠ [] then
            match rest2.drop run.length with
            | '_' :: '_' :: rest3 => run :: emphasisScan fuel rest3
            | _ => emphasisScan fuel rest
          else emphasisScan fuel rest)
       | _ =>
         let run := rest.takeWhile (fun c => c ≠ '_')
         (if run ≠ [] then
            match rest.drop run.length with
            | '_' :: rest3 => run :: emphasisScan fuel rest3
            | _ => emphasisScan fuel rest
          else emphasisScan fuel rest))
    | _ :: rest => emphasisScan fuel rest

/-- The appended "document structure analysis" block. -/
def pdfSummary (headers bullet_points important_terms : List PyStr) : PyStr :=
  let s0 := ("\n\n=== 文書構造の分析 ===\n").data
  let s1 := if headers ≠ [] then
      s0 ++ ("\n【検出された見出し】\n").data ++
        ((headers.take 7).map (fun h => ("- ").data ++ h ++ ("\n").data)).flatten
    else s0
  let s2 := if bullet_points ≠ [] then
      s1 ++ ("\n【検出された箇条書き/手順】\n").data ++
        ((bullet_points.take 7).map (fun p => p ++ ("\n").data)).flatten
    else s1
  if important_terms ≠ [] then
    s2 ++ ("\n【検出された重要用語】\n").data ++
      ((important_terms.take 10).map (fun t => ("- ").data ++ t ++ ("\n").data)).flatten
  else s2

/-- The `try` body of `PDFTextProcessor.process`. -/
def pdfTryBody (text : PyStr) : Option PdfReport :=
  let lines := pySplit text (("\n").data)
  match headersGo lines 0 lines with
  | none => none
  | some headers =>
    let bullet_points := (lines.filter bulletMatch).map pyStrip
    let quoted := quotedScan (text.length + 1) text
    let compounds := (compoundScan (text.length + 1) text).filter (fun t => t.length > 3)
    let emphasis := (emphasisScan (text.length + 1) text).filter (fun t => t.length > 1)
    let important_terms := addTerms (addTerms (addTerms [] quoted) compounds) emphasis
    some { original_text := text, headers := headers, bullet_points := bullet_points,
           important_terms := important_terms,
           enhanced_text := text ++ pdfSummary headers bullet_points important_terms }

/-- The `except` handler: whatever partial state the result dict holds, it
sets `enhanced_text` to the original text and returns. -/
def pdfExceptReport (text : PyStr) : PdfReport :=
  { original_text := text, headers := [], bullet_points := [],
    important_terms := [], enhanced_text := text }

/-- `PDFTextProcessor.process`. -/
def process (text : PyStr) : PdfReport :=
  match pdfTryBody text with
  | some r => r
  | none => pdfExceptReport text

end PDFTextProcessor

namespace SlackConversationProcessor

structure SlackMsg where
  speaker : PyStr
  message : PyStr
deriving DecidableEq, Repr

structure QaPair where
  question_by : PyStr
  question : PyStr
  answer_by : PyStr
  answer : PyStr
deriving DecidableEq, Repr

/-- The result dict of `SlackConversationProcessor.process`. -/
structure SlackReport where
  original_text : PyStr
  structured_messages : List SlackMsg
  qa_pairs : List QaPair
  participants : List PyStr
  enhanced_text : PyStr
deriving Repr

/-- `line.split(':', 1)`. -/
def splitColon1 (line : PyStr) : PyStr × Option PyStr :=
  match findInfix line ((":").data) with
  | none => (line, none)
  | some i => (line.take i, some (line.drop (i + 1)))

/-- Truthiness of `current_speaker` (`None` or the empty string are falsy). -/
def speakerTruthy : Option PyStr → Bool
  | none => false
  | some sp => sp ≠ []

/-- `"\n".flatten(current_message)`. -/
def joinNL (msgs : List PyStr) : PyStr :=
  match msgs with
  | [] => []
  | m :: rest => m ++ (rest.map (fun x => ("\n").data ++ x)).flatten

/-- The speaker-turn loop; state is
`(structured_convo, current_speaker, current_message, participants)`. -/
def turnLoop :
    List PyStr → List SlackMsg → Option PyStr → List PyStr → List PyStr →
      List SlackMsg × Option PyStr × List PyStr × List PyStr
  | [], convo, sp, msg, parts => (convo, sp, msg, parts)
  | line :: rest, convo, sp, msg, parts =>
    let sc := splitColon1 line
    if pyContains line ((":").data) && decide (sc.1.length < 30) then
      let convo2 := if speakerTruthy sp ∧ msg ≠ [] then
          convo ++ [⟨(match sp with | some s => s | none => []), joinNL msg⟩]
        else convo
      let nsp := pyStrip sc.1
      let nmsg := match sc.2 with
        | some after => [pyStrip after]
        | none => []
      turnLoop rest convo2 (some nsp) nmsg (addTerm parts nsp)
    else
      turnLoop rest convo sp (if speakerTruthy sp then msg ++ [line] else msg) parts

def questionIndicators : List PyStr :=
  [("?").data, ("？").data, ("how").data, ("what").data, ("when").data,
   ("where").data, ("why").data, ("who").data, ("which").data,
   ("could you").data, ("can you").data, ("どう").data, ("なぜ").data,
   ("どこ").data, ("いつ").data, ("だれ").data, ("何").data,
   ("教えて").data, ("ください").data, ("できますか").data,
   ("できる？").data, ("ですか").data]

/-- The adjacent-turn Q&A loop over `range(len(structured_convo) - 1)`;
both indexings are modelled as `Option` accesses. -/
def qaGo (convo : List SlackMsg) : List Nat → Option (List QaPair)
  | [] => some []
  | i :: rest =>
    match convo.get? i, convo.get? (i + 1) with
    | some cur, some nxt =>
      (match qaGo convo rest with
       | none => none
       | some tail =>
         let is_question := questionIndicators.any
           (fun q => pyContains (cur.message.map pyToLower) q)
         some ((if is_question then
                  [⟨cur.speaker, cur.message, nxt.speaker, nxt.message⟩]
                else []) ++ tail))
    | _, _ => none

def qaLoop (convo : List SlackMsg) : Option (List QaPair) :=
  qaGo convo (List.range (convo.length - 1))

def natToStr (n : Nat) : PyStr := (toString n).data

def qaSummary (qas : List QaPair) : PyStr :=
  ("\n\n=== 検出された質問と回答のパターン ===\n").data ++
  (qas.enum.map (fun p =>
      ("\n【質問").data ++ natToStr (p.1 + 1) ++ ("】 (").data ++ p.2.question_by ++
      ("): ").data ++ p.2.question ++ ("\n").data ++
      ("【回答").data ++ natToStr (p.1 + 1) ++ ("】 (").data ++ p.2.answer_by ++
      ("): ").data ++ p.2.answer ++ ("\n").data)).flatten

def participantSummary (parts : List PyStr) : PyStr :=
  ("\n\n=== 会話参加者 ===\n").data ++
  (parts.map (fun p => ("- ").data ++ p ++ ("\n").data)).flatten

/-- The `try` body of `SlackConversationProcessor.process`. -/
def slackTryBody (conversation_text : PyStr) : Option SlackReport :=
  let lines := pySplit conversation_text (("\n").data)
  let r := turnLoop lines [] none [] []
  let convo := if speakerTruthy r.2.1 ∧ r.2.2.1 ≠ [] then
      r.1 ++ [⟨(match r.2.1 with | some s => s | none => []), joinNL r.2.2.1⟩]
    else r.1
  match qaLoop convo with
  | none => none
  | some qas =>
    let enhanced1 := conversation_text ++ (if qas ≠ [] then qaSummary qas else [])
    let enhanced2 := enhanced1 ++
      (if r.2.2.2 ≠ [] then participantSummary r.2.2.2 else [])
    some { original_text := conversation_text, structured_messages := convo,
           qa_pairs := qas, participants := r.2.2.2, enhanced_text := enhanced2 }

/-- The `except` handler of `SlackConversationProcessor.process`. -/
def slackExceptReport (text : PyStr) : SlackReport :=
  { original_text := text, structured_messages := [], qa_pairs := [],
    participants := [], enhanced_text := text }

/-- `SlackConversationProcessor.process`. -/
def process (text : PyStr) : SlackReport :=
  match slackTryBody text with
  | some r => r
  | none => slackExceptReport text

end SlackConversationProcessor

namespace FAQPostProcessor

theorem get_ngrams_eq_nil_of_short {t : PyStr} (h : t.length < 3) :
    get_ngrams t 3 = [] := by
  unfold get_ngrams
  have : t.length + 1 - 3 = 0 := by omega
  rw [this]
  rfl

theorem calculate_similarity_zero_of_short {t1 t2 : PyStr}
    (h : t1.length < 3 ∨ t2.length < 3) :
    calculate_similarity t1 t2 = 0 := by
  rcases h with h | h
  · unfold calculate_similarity
    rw [get_ngrams_eq_nil_of_short h]
    simp [Rat.zero_mkRat]
  · unfold calculate_similarity
    rw [get_ngrams_eq_nil_of_short h]
    simp [Rat.zero_mkRat]

theorem simScan_unchanged (q : PyStr) :
    ∀ (pq : List (PyStr × Nat)) (st : Bool × Option PyStr × ℚ),
      (∀ kv ∈ pq, ¬ (calculate_similarity q kv.1 > mkRat 7 10)) →
      simScan q pq st = st := by
  intro pq
  induction pq with
  | nil => intro st _; rfl
  | cons kv rest ih =>
    intro st h
    have hkv : ¬ (calculate_similarity q kv.1 > mkRat 7 10) := h kv (by simp)
    simp only [simScan, if_neg hkv]
    exact ih st (fun x hx => h x (by simp [hx]))

end FAQPostProcessor

namespace FAQPostProcessor

theorem sevenTenths_pos : (0 : ℚ) < mkRat 7 10 := by decide

/-- Full characterisation of the similarity scan: the running maximum never
decreases, bounds every similarity seen (up to the 0.7 gate), and either the
state is untouched or it records a key of `S` realising the maximum. -/
theorem simScan_spec (q : PyStr) (S : List (PyStr × Nat)) :
    ∀ (pq : List (PyStr × Nat)) (d : Bool) (b : Option PyStr) (h : ℚ),
      (∀ kv ∈ pq, kv ∈ S) →
      ((b = none ∧ h = 0) ∨
        (h > mkRat 7 10 ∧ ∃ kv ∈ S, b = some kv.1 ∧ h = calculate_similarity q kv.1)) →
      h ≤ (simScan q pq (d, b, h)).2.2 ∧
      (∀ kv ∈ pq, calculate_similarity q kv.1 ≤ mkRat 7 10 ∨
        calculate_similarity q kv.1 ≤ (simScan q pq (d, b, h)).2.2) ∧
      (simScan q pq (d, b, h) = (d, b, h) ∨
        ((simScan q pq (d, b, h)).1 = true ∧
         (simScan q pq (d, b, h)).2.2 > mkRat 7 10 ∧
         ∃ kv ∈ S, (simScan q pq (d, b, h)).2.1 = some kv.1 ∧
           (simScan q pq (d, b, h)).2.2 = calculate_similarity q kv.1)) := by
  intro pq
  induction pq with
  | nil =>
    intro d b h _ _
    exact ⟨le_refl h, fun kv hkv => absurd hkv (List.not_mem_nil kv), Or.inl rfl⟩
  | cons kv rest ih =>
    intro d b h hsub hinv
    have hkvS : kv ∈ S := hsub kv (by simp)
    have hrest : ∀ x ∈ rest, x ∈ S := fun x hx => hsub x (by simp [hx])
    by_cases hgt : calculate_similarity q kv.1 > mkRat 7 10
    · by_cases hup : calculate_similarity q kv.1 > h
      · have heq : simScan q (kv :: rest) (d, b, h) =
            simScan q rest (true, some kv.1, calculate_similarity q kv.1) := by
          simp only [simScan, if_pos hgt, if_pos hup]
        have ihr := ih true (some kv.1) (calculate_similarity q kv.1) hrest
          (Or.inr ⟨hgt, kv, hkvS, rfl, rfl⟩)
        rw [heq]
        refine ⟨le_trans (le_of_lt hup) ihr.1, ?_, ?_⟩
        · intro x hx
          rcases List.mem_cons.mp hx with hx | hx
          · subst hx; exact Or.inr ihr.1
          · exact ihr.2.1 x hx
        · rcases ihr.2.2 with hfix | hgood
          · rw [hfix]
            exact Or.inr ⟨rfl, hgt, kv, hkvS, rfl, rfl⟩
          · exact Or.inr hgood
      · have hinv2 : (b = none ∧ h = 0) ∨
            (h > mkRat 7 10 ∧ ∃ x ∈ S, b = some x.1 ∧ h = calculate_similarity q x.1) := by
          rcases hinv with ⟨hb, hh⟩ | hr
          · exfalso
            push_neg at hup
            rw [hh] at hup
            linarith [sevenTenths_pos, hgt, hup]
          · exact Or.inr hr
        have heq : simScan q (kv :: rest) (d, b, h) =
            simScan q rest (true, b, h) := by
          simp only [simScan, if_pos hgt, if_neg hup]
        have ihr := ih true b h hrest hinv2
        rw [heq]
        refine ⟨ihr.1, ?_, ?_⟩
        · intro x hx
          rcases List.mem_cons.mp hx with hx | hx
          · subst hx
            push_neg at hup
            exact Or.inr (le_trans hup ihr.1)
          · exact ihr.2.1 x hx
        · rcases hinv2 with ⟨_, hh⟩ | ⟨hh7, x, hxS, hbx, hhx⟩
          · exfalso
            rw [hh] at hup
            push_neg at hup
            linarith [sevenTenths_pos, lt_of_lt_of_le hgt hup]
          · rcases ihr.2.2 with hfix | hgood
            · rw [hfix]
              exact Or.inr ⟨rfl, hh7, x, hxS, hbx, hhx⟩
            · exact Or.inr hgood
    · have heq : simScan q (kv :: rest) (d, b, h) = simScan q rest (d, b, h) := by
        simp only [simScan, if_neg hgt]
      have ihr := ih d b h hrest hinv
      rw [heq]
      refine ⟨ihr.1, ?_, ihr.2.2⟩
      intro x hx
      rcases List.mem_cons.mp hx with hx | hx
      · subst hx
        exact Or.inl (not_lt.mp hgt)
      · exact ihr.2.1 x hx

end FAQPostProcessor

namespace FAQPostProcessor

theorem lookup_some_of_key_mem :
    ∀ (pq : List (PyStr × Nat)) (bk : PyStr), (∃ kv ∈ pq, kv.1 = bk) →
      ∃ idx, List.lookup bk pq = some idx ∧ (bk, idx) ∈ pq := by
  intro pq
  induction pq with
  | nil => intro bk h; rcases h with ⟨kv, hkv, _⟩; exact absurd hkv (List.not_mem_nil kv)
  | cons kv rest ih =>
    obtain ⟨k1, v1⟩ := kv
    intro bk h
    by_cases hk : k1 = bk
    · subst hk
      refine ⟨v1, ?_, by simp⟩
      rw [List.lookup_cons]
      simp
    · have hbk : (bk == k1) = false := by
        simp only [beq_eq_false_iff_ne, ne_eq]
        exact fun he => hk he.symm
      have hex : ∃ x ∈ rest, x.1 = bk := by
        rcases h with ⟨x, hx, hx1⟩
        rcases List.mem_cons.mp hx with rfl | hx
        · exact absurd hx1 hk
        · exact ⟨x, hx, hx1⟩
      rcases ih bk hex with ⟨idx, h1, h2⟩
      refine ⟨idx, ?_, by simp [h2]⟩
      rw [List.lookup_cons, hbk]
      · exact h1

/-- Case analysis on one deduplication step: the candidate is either
appended as a new record, or the accumulator is returned with at most one
answer replaced. -/
theorem dedupStep_cases {α : Type} (st : List (PyStr × Nat) × List (Faq α)) (f : Faq α) :
    dedupStep st f = (dictInsert st.1 f.question st.2.length, st.2 ++ [f]) ∨
    ((dedupStep st f).1 = st.1 ∧
      ((dedupStep st f).2 = st.2 ∨
        ∃ idx ex, st.2.get? idx = some ex ∧
          (dedupStep st f).2 = st.2.set idx { ex with answer := f.answer })) := by
  rcases hscan : simScan f.question st.1 (false, none, 0) with ⟨d, b, h⟩
  cases d
  · exact Or.inl (by simp only [dedupStep, hscan])
  · cases b with
    | none => exact Or.inl (by simp only [dedupStep, hscan])
    | some bm =>
      by_cases hbm : bm ≠ []
      · cases hlk : List.lookup bm st.1 with
        | none =>
          have hd : dedupStep st f = (st.1, st.2) := by
            simp only [dedupStep, hscan, if_pos hbm, hlk]
          exact Or.inr ⟨by rw [hd], Or.inl (by rw [hd])⟩
        | some idx =>
          cases hget : st.2.get? idx with
          | none =>
            have hd : dedupStep st f = (st.1, st.2) := by
              simp only [dedupStep, hscan, if_pos hbm, hlk, hget]
            exact Or.inr ⟨by rw [hd], Or.inl (by rw [hd])⟩
          | some ex =>
            by_cases hlen : f.answer.length > ex.answer.length
            · have hd : dedupStep st f =
                  (st.1, st.2.set idx { ex with answer := f.answer }) := by
                simp only [dedupStep, hscan, if_pos hbm, hlk, hget, if_pos hlen]
              exact Or.inr ⟨by rw [hd], Or.inr ⟨idx, ex, hget, by rw [hd]⟩⟩
            · have hd : dedupStep st f = (st.1, st.2) := by
                simp only [dedupStep, hscan, if_pos hbm, hlk, hget, if_neg hlen]
              exact Or.inr ⟨by rw [hd], Or.inl (by rw [hd])⟩
      · exact Or.inl (by simp only [dedupStep, hscan, if_neg hbm])

end FAQPostProcessor


namespace FAQPostProcessor

theorem processLoop_mem {α : Type} (source_type : PyStr) (source_url : Option PyStr) :
    ∀ (l : List (Faq α)) (r : Faq α), r ∈ processLoop source_type source_url l →
      ∃ e, e ∈ l ∧ e.question ≠ [] ∧ e.answer ≠ [] ∧
        r = { question := improve_question e.question,
              answer := improve_answer e.answer source_type source_url,
              extra := e.extra } := by
  intro l
  induction l with
  | nil => intro r hr; exact absurd hr (List.not_mem_nil r)
  | cons f rest ih =>
    intro r hr
    by_cases h : f.question = [] ∨ f.answer = []
    · rw [processLoop, if_pos h] at hr
      rcases ih r hr with ⟨e, he, h1, h2, h3⟩
      exact ⟨e, List.mem_cons_of_mem f he, h1, h2, h3⟩
    · rw [processLoop, if_neg h] at hr
      push_neg at h
      rcases List.mem_cons.mp hr with rfl | hr
      · exact ⟨f, List.mem_cons_self f rest, h.1, h.2, rfl⟩
      · rcases ih r hr with ⟨e, he, h1, h2, h3⟩
        exact ⟨e, List.mem_cons_of_mem f he, h1, h2, h3⟩

theorem removeDupGo_mem {α : Type} (L : List (Faq α)) :
    ∀ (l : List (Faq α)) (pq : List (PyStr × Nat)) (uf : List (Faq α)),
      (∀ c ∈ l, c ∈ L) →
      (∀ r ∈ uf, ∃ c1, c1 ∈ L ∧ ∃ c2, c2 ∈ L ∧
        r = { question := c1.question, answer := c2.answer, extra := c1.extra }) →
      ∀ r ∈ (removeDupGo l (pq, uf)).2,
        ∃ c1, c1 ∈ L ∧ ∃ c2, c2 ∈ L ∧
          r = { question := c1.question, answer := c2.answer, extra := c1.extra } := by
  intro l
  induction l with
  | nil => intro pq uf _ huf r hr; exact huf r hr
  | cons f rest ih =>
    intro pq uf hl huf r hr
    have hf : f ∈ L := hl f (by simp)
    have hrest : ∀ c ∈ rest, c ∈ L := fun c hc => hl c (by simp [hc])
    have hnew : ∀ x ∈ (dedupStep (pq, uf) f).2,
        ∃ c1, c1 ∈ L ∧ ∃ c2, c2 ∈ L ∧
          x = { question := c1.question, answer := c2.answer, extra := c1.extra } := by
      rcases dedupStep_cases (pq, uf) f with hap | ⟨_, hm⟩
      · rw [hap]
        intro x hx
        rcases List.mem_append.mp hx with hx | hx
        · exact huf x hx
        · have hx2 : x = f := List.mem_singleton.mp hx
          rw [hx2]
          exact ⟨f, hf, f, hf, rfl⟩
      · rcases hm with hsame | ⟨idx, ex, hget, hset⟩
        · rw [hsame]; exact huf
        · rw [hset]
          intro x hx
          rcases List.mem_or_eq_of_mem_set hx with hx | rfl
          · exact huf x hx
          · rcases huf ex (List.get?_mem hget) with ⟨c1, h1, c2, h2, hex⟩
            refine ⟨c1, h1, f, hf, ?_⟩
            rw [hex]
    have step : removeDupGo (f :: rest) (pq, uf) =
        removeDupGo rest ((dedupStep (pq, uf) f).1, (dedupStep (pq, uf) f).2) := rfl
    rw [step] at hr
    exact ih (dedupStep (pq, uf) f).1 (dedupStep (pq, uf) f).2 hrest hnew r hr

/-- Every record of `process` takes its question (and all fields other than
question and answer) from one surviving entry and its answer from one
surviving entry. -/
theorem process_mem {α : Type} (faqs : List (Faq α)) (source_type : PyStr)
    (source_url : Option PyStr) (r : Faq α) (hr : r ∈ process faqs source_type source_url) :
    ∃ e, e ∈ faqs ∧ e.question ≠ [] ∧ e.answer ≠ [] ∧
      r.extra = e.extra ∧ r.question = improve_question e.question ∧
      ∃ e2, e2 ∈ faqs ∧ e2.question ≠ [] ∧ e2.answer ≠ [] ∧
        r.answer = improve_answer e2.answer source_type source_url := by
  have hmem : r ∈ remove_duplicates (processLoop source_type source_url faqs) := by
    cases faqs with
    | nil => exact absurd hr (List.not_mem_nil r)
    | cons f rest => exact hr
  have hdd : ∀ x ∈ remove_duplicates (processLoop source_type source_url faqs),
      ∃ c1, c1 ∈ processLoop source_type source_url faqs ∧
        ∃ c2, c2 ∈ processLoop source_type source_url faqs ∧
          x = { question := c1.question, answer := c2.answer, extra := c1.extra } := by
    cases hpl : processLoop source_type source_url faqs with
    | nil =>
      intro x hx
      simp [remove_duplicates] at hx
    | cons g grest =>
      have hrw : remove_duplicates (g :: grest) = (removeDupGo (g :: grest) ([], [])).2 := rfl
      rw [hrw]
      intro x hx
      exact removeDupGo_mem (g :: grest) (g :: grest) [] []
        (fun c hc => hc) (fun r hr => absurd hr (List.not_mem_nil r)) x hx
  rcases hdd r hmem with ⟨c1, hc1, c2, hc2, hre⟩
  rcases processLoop_mem source_type source_url faqs c1 hc1 with ⟨e, he, he1, he2, hc1e⟩
  rcases processLoop_mem source_type source_url faqs c2 hc2 with ⟨e2, hf2, hf21, hf22, hc2e⟩
  refine ⟨e, he, he1, he2, ?_, ?_, e2, hf2, hf21, hf22, ?_⟩
  · rw [hre, hc1e]
  · rw [hre, hc1e]
  · rw [hre, hc2e]

end FAQPostProcessor

namespace FAQPostProcessor

/-- Claim C3: in deduplication, a candidate whose question exceeds 0.7
n-gram Jaccard similarity to some previously accepted question is merged
into the prior record of maximal similarity — its answer is replaced
exactly when the candidate's answer is strictly longer and nothing is
appended — while a candidate at most 0.7-similar to every accepted
question is appended at the end as a distinct record. -/
theorem dedup_step_spec (α : Type) (pq : List (PyStr × Nat)) (uf : List (Faq α))
    (cand : Faq α) (hinv : ∀ kv ∈ pq, kv.2 < uf.length) :
    ((∃ kv ∈ pq, calculate_similarity cand.question kv.1 > mkRat 7 10) →
      ∃ bk idx ex,
        calculate_similarity cand.question bk > mkRat 7 10 ∧
        (∀ kv ∈ pq, calculate_similarity cand.question kv.1 ≤
          calculate_similarity cand.question bk) ∧
        List.lookup bk pq = some idx ∧ uf.get? idx = some ex ∧
        dedupStep (pq, uf) cand =
          (pq, if cand.answer.length > ex.answer.length then
                 uf.set idx { ex with answer := cand.answer } else uf)) ∧
    ((∀ kv ∈ pq, calculate_similarity cand.question kv.1 ≤ mkRat 7 10) →
      dedupStep (pq, uf) cand = (dictInsert pq cand.question uf.length, uf ++ [cand])) := by
  constructor
  · rintro ⟨kv0, hkv0, hsim0⟩
    rcases hscan : simScan cand.question pq (false, none, 0) with ⟨d, b, hmax⟩
    have hs := simScan_spec cand.question pq pq false none 0
      (fun kv hkv => hkv) (Or.inl ⟨rfl, rfl⟩)
    rw [hscan] at hs
    obtain ⟨h1, h2, h3⟩ := hs
    rcases h3 with hfix | ⟨hd, hgt, kvb, hkvb, hb, hh⟩
    · exfalso
      have hz : hmax = (0 : ℚ) := congrArg (fun p => p.2.2) hfix
      rcases h2 kv0 hkv0 with hle | hle
      · exact absurd hsim0 (not_lt.mpr hle)
      · have : calculate_similarity cand.question kv0.1 ≤ 0 := by
          simpa [hz] using hle
        linarith [sevenTenths_pos, hsim0]
    · have hd2 : d = true := hd
      have hb2 : b = some kvb.1 := hb
      have hh2 : hmax = calculate_similarity cand.question kvb.1 := hh
      subst hd2; subst hb2
      have hgt2 : calculate_similarity cand.question kvb.1 > mkRat 7 10 := by
        rw [← hh2]; exact hgt
      have hbknil : kvb.1 ≠ [] := by
        intro hnil
        have hzero : calculate_similarity cand.question kvb.1 = 0 :=
          calculate_similarity_zero_of_short (Or.inr (by rw [hnil]; decide))
        rw [hzero] at hgt2
        exact absurd hgt2 (not_lt.mpr (le_of_lt sevenTenths_pos))
      obtain ⟨idx, hlk, hmem⟩ := lookup_some_of_key_mem pq kvb.1 ⟨kvb, hkvb, rfl⟩
      have hidx : idx < uf.length := hinv (kvb.1, idx) hmem
      obtain ⟨ex, hget⟩ : ∃ ex, uf.get? idx = some ex :=
        ⟨uf.get ⟨idx, hidx⟩, List.get?_eq_get hidx⟩
      refine ⟨kvb.1, idx, ex, hgt2, ?_, hlk, hget, ?_⟩
      · intro kv hkv
        rcases h2 kv hkv with hle | hle
        · exact le_trans hle (le_of_lt hgt2)
        · rw [← hh2]; exact hle
      · by_cases hlen : cand.answer.length > ex.answer.length
        · rw [if_pos hlen]
          simp only [dedupStep, hscan, if_pos hbknil, hlk, hget, if_pos hlen]
        · rw [if_neg hlen]
          simp only [dedupStep, hscan, if_pos hbknil, hlk, hget, if_neg hlen]
  · intro hall
    have hall2 : ∀ kv ∈ pq, ¬(calculate_similarity cand.question kv.1 > mkRat 7 10) :=
      fun kv hkv => not_lt.mpr (hall kv hkv)
    have hscan : simScan cand.question pq (false, none, 0) = (false, none, 0) :=
      simScan_unchanged cand.question pq (false, none, 0) hall2
    simp only [dedupStep, hscan]

end FAQPostProcessor

namespace FAQPostProcessor

/-- Claim C6 (amended): `process` drops exactly the entries whose
`question` or `answer` field is the empty string — the output equals the
output on the input with those entries filtered out.  (Whitespace-only
fields are truthy in Python and are kept, receiving sentinel values.) -/
theorem process_drops_empty_string_fields {α : Type} (faqs : List (Faq α))
    (source_type : PyStr) (source_url : Option PyStr) :
    process faqs source_type source_url =
      process (faqs.filter (fun f => !(decide (f.question = [] ∨ f.answer = []))))
        source_type source_url := by
  have hloop : ∀ l : List (Faq α), processLoop source_type source_url l =
      processLoop source_type source_url
        (l.filter (fun f => !(decide (f.question = [] ∨ f.answer = [])))) := by
    intro l
    induction l with
    | nil => rfl
    | cons f rest ih =>
      by_cases h : f.question = [] ∨ f.answer = []
      · have hp : (!(decide (f.question = [] ∨ f.answer = []))) = false := by simp [h]
        rw [processLoop, if_pos h, List.filter_cons, hp]
        simpa using ih
      · have hp : (!(decide (f.question = [] ∨ f.answer = []))) = true := by simp [h]
        rw [processLoop, if_neg h, List.filter_cons, hp]
        simp only [if_pos]
        rw [processLoop, if_neg h, ih]
  cases faqs with
  | nil => rfl
  | cons f rest =>
    cases hf : (f :: rest).filter (fun f => !(decide (f.question = [] ∨ f.answer = []))) with
    | nil =>
      have hl : processLoop source_type source_url (f :: rest) = [] := by
        rw [hloop, hf]; rfl
      show remove_duplicates (processLoop source_type source_url (f :: rest)) = _
      rw [hl]
      rfl
    | cons g grest =>
      show remove_duplicates (processLoop source_type source_url (f :: rest)) =
        remove_duplicates (processLoop source_type source_url (g :: grest))
      rw [hloop (f :: rest), hf]

/-- Claim C6 counterexample: an entry whose question is whitespace-only
(hence empty after trimming) is not dropped — it produces a record with
the sentinel question. -/
theorem process_keeps_whitespace_only_question :
    pyStrip ((" ").data) = [] ∧
    process [⟨(" ").data, ("a").data, (0 : Nat)⟩] (("pdf").data) none =
      [⟨("不明な質問").data, ("a.").data, 0⟩] := by decide

/-- Claim C9: every output record of `process` agrees with the entry it
was derived from on every field other than `question` and `answer`
(the `extra` component is copied verbatim), its question is the
normalization of that entry's question, and its answer is the
normalization of some entry's answer. -/
theorem process_preserves_extra_fields (α : Type) (faqs : List (Faq α))
    (source_type : PyStr) (source_url : Option PyStr) (r : Faq α)
    (hr : r ∈ process faqs source_type source_url) :
    ∃ e, e ∈ faqs ∧ r.extra = e.extra ∧ r.question = improve_question e.question ∧
      ∃ e2, e2 ∈ faqs ∧ r.answer = improve_answer e2.answer source_type source_url := by
  rcases process_mem faqs source_type source_url r hr with
    ⟨e, he, _, _, hx, hq, e2, he2, _, _, ha⟩
  exact ⟨e, he, hx, hq, e2, he2, ha⟩

theorem process_preserves_extra_fields_witness :
    ∃ e, e ∈ [(⟨("abc").data, ("xyz").data, (7 : Nat)⟩ : Faq Nat)] ∧
      (⟨("Abc?").data, ("xyz.").data, (7 : Nat)⟩ : Faq Nat).extra = e.extra ∧
      (⟨("Abc?").data, ("xyz.").data, (7 : Nat)⟩ : Faq Nat).question =
        improve_question e.question ∧
      ∃ e2, e2 ∈ [(⟨("abc").data, ("xyz").data, (7 : Nat)⟩ : Faq Nat)] ∧
        (⟨("Abc?").data, ("xyz.").data, (7 : Nat)⟩ : Faq Nat).answer =
          improve_answer e2.answer (("pdf").data) none :=
  process_preserves_extra_fields Nat [⟨("abc").data, ("xyz").data, 7⟩]
    (("pdf").data) none ⟨("Abc?").data, ("xyz.").data, 7⟩ (by decide)

/-- Claim C10: the 3-gram similarity of any pair involving a string
shorter than 3 characters is 0 (its n-gram set is empty), so a candidate
with such a question is never treated as a duplicate: the deduplication
step always appends it as a distinct record. -/
theorem short_question_never_duplicate :
    (∀ t1 t2 : PyStr, t1.length < 3 ∨ t2.length < 3 →
      calculate_similarity t1 t2 = 0) ∧
    (∀ (α : Type) (pq : List (PyStr × Nat)) (uf : List (Faq α)) (cand : Faq α),
      cand.question.length < 3 →
      dedupStep (pq, uf) cand = (dictInsert pq cand.question uf.length, uf ++ [cand])) := by
  constructor
  · exact fun t1 t2 h => calculate_similarity_zero_of_short h
  · intro α pq uf cand hshort
    have hall : ∀ kv ∈ pq, ¬(calculate_similarity cand.question kv.1 > mkRat 7 10) := by
      intro kv _
      rw [calculate_similarity_zero_of_short (Or.inl hshort)]
      exact not_lt.mpr (le_of_lt sevenTenths_pos)
    have hscan : simScan cand.question pq (false, none, 0) = (false, none, 0) :=
      simScan_unchanged cand.question pq (false, none, 0) hall
    simp only [dedupStep, hscan]

theorem short_question_never_duplicate_witness :
    calculate_similarity (("ab").data) (("xyz").data) = 0 ∧
    dedupStep (([(("xy").data, 0)], [(⟨("xy").data, ("a").data, 0⟩ : Faq Nat)]))
        ⟨("xy").data, ("bb").data, 1⟩ =
      ([(("xy").data, 1)],
       [⟨("xy").data, ("a").data, 0⟩, ⟨("xy").data, ("bb").data, 1⟩]) :=
  ⟨(short_question_never_duplicate).1 (("ab").data) (("xyz").data) (Or.inl (by decide)),
   (short_question_never_duplicate).2 Nat [((("xy").data), 0)]
     [⟨("xy").data, ("a").data, 0⟩] ⟨("xy").data, ("bb").data, 1⟩ (by decide)⟩

end FAQPostProcessor

namespace FAQPostProcessor

theorem dedup_step_spec_witness :
    ∃ bk idx ex,
      calculate_similarity (("abcdefgh!").data) bk > mkRat 7 10 ∧
      (∀ kv ∈ [((("abcdefgh?").data), 0)],
        calculate_similarity (("abcdefgh!").data) kv.1 ≤
          calculate_similarity (("abcdefgh!").data) bk) ∧
      List.lookup bk [((("abcdefgh?").data), 0)] = some idx ∧
      [(⟨("abcdefgh?").data, ("short").data, (0 : Nat)⟩ : Faq Nat)].get? idx = some ex ∧
      dedupStep ([((("abcdefgh?").data), 0)],
          [(⟨("abcdefgh?").data, ("short").data, 0⟩ : Faq Nat)])
          ⟨("abcdefgh!").data, ("longer answer").data, 1⟩ =
        ([((("abcdefgh?").data), 0)],
         if (("longer answer").data).length > ex.answer.length then
           [(⟨("abcdefgh?").data, ("short").data, 0⟩ : Faq Nat)].set idx
             { ex with answer := ("longer answer").data }
         else [⟨("abcdefgh?").data, ("short").data, 0⟩]) :=
  (dedup_step_spec Nat [((("abcdefgh?").data), 0)]
      [⟨("abcdefgh?").data, ("short").data, 0⟩]
      ⟨("abcdefgh!").data, ("longer answer").data, 1⟩ (by decide)).1
    ⟨((("abcdefgh?").data), 0), by decide, by decide⟩

end FAQPostProcessor

theorem char_toNat_ofNat {n : Nat} (h : n < 0xD800) : (Char.ofNat n).toNat = n := by
  rw [Char.ofNat, dif_pos (Or.inl h)]
  simp [Char.ofNatAux, Char.toNat, UInt32.toNat]

theorem pyIsLower_pyToUpper (c : Char) : pyIsLower (pyToUpper c) = false := by
  unfold pyToUpper
  by_cases h : pyIsLower c = true
  · rw [if_pos h]
    unfold pyIsLower at h ⊢
    simp only [Bool.and_eq_true, decide_eq_true_eq] at h
    rw [char_toNat_ofNat (by omega)]
    simp only [Bool.and_eq_false_iff, decide_eq_false_iff_not]
    left
    omega
  · rw [if_neg h]
    simpa using h

theorem isPySpace_pyToUpper (c : Char) (h : isPySpace c = false) :
    isPySpace (pyToUpper c) = false := by
  unfold pyToUpper
  by_cases hl : pyIsLower c = true
  · rw [if_pos hl]
    unfold pyIsLower at hl
    simp only [Bool.and_eq_true, decide_eq_true_eq] at hl
    unfold isPySpace
    rw [char_toNat_ofNat (by omega)]
    simp only [Bool.or_eq_false_iff, Bool.and_eq_false_iff, decide_eq_false_iff_not,
      beq_eq_false_iff_ne, ne_eq]
    omega
  · rw [if_neg hl]
    exact h

theorem pyEndsWith_single (s : PyStr) (c : Char) :
    pyEndsWith s [c] = true ↔ s.getLast? = some c := by
  unfold pyEndsWith
  rw [List.isSuffixOf_iff_suffix]
  constructor
  · rintro ⟨t, rfl⟩
    exact List.getLast?_concat t
  · intro h
    rcases List.getLast?_eq_some_iff.mp h with ⟨ys, rfl⟩
    exact ⟨ys, rfl⟩

theorem dropWhile_head_false {p : Char → Bool} {l : PyStr} {c : Char} {t : PyStr}
    (h : l.dropWhile p = c :: t) : p c = false := by
  induction l with
  | nil => simp at h
  | cons a l ih =>
    rw [List.dropWhile_cons] at h
    by_cases hp : p a = true
    · rw [if_pos hp] at h
      exact ih h
    · rw [if_neg hp] at h
      injection h with h1 _
      subst h1
      simpa using hp

theorem pyStrip_head_false {l : PyStr} {c : Char} {t : PyStr} (h : pyStrip l = c :: t) :
    isPySpace c = false := by
  unfold pyStrip at h
  have hsuf : (l.dropWhile isPySpace).reverse.dropWhile isPySpace <:+
      (l.dropWhile isPySpace).reverse := List.dropWhile_suffix _
  have hpre : ((l.dropWhile isPySpace).reverse.dropWhile isPySpace).reverse <+:
      l.dropWhile isPySpace := by
    have h2 := List.reverse_prefix.mpr hsuf
    simpa using h2
  rw [h] at hpre
  rcases hpre with ⟨t2, ht⟩
  have h3 : l.dropWhile isPySpace = c :: (t ++ t2) := by
    rw [← ht]
    simp
  exact dropWhile_head_false h3

theorem pyStrip_eq_self {l : PyStr}
    (hh : ∀ c, l.head? = some c → isPySpace c = false)
    (hl : ∀ c, l.getLast? = some c → isPySpace c = false) : pyStrip l = l := by
  cases l with
  | nil => rfl
  | cons c t =>
    have hc : isPySpace c = false := hh c rfl
    obtain ⟨d, hd⟩ : ∃ d, (c :: t).getLast? = some d := by
      have : (c :: t) ≠ [] := by simp
      exact Option.isSome_iff_exists.mp (List.getLast?_isSome.mpr this)
    have hdw : isPySpace d = false := hl d hd
    rcases List.getLast?_eq_some_iff.mp hd with ⟨ys, hys⟩
    unfold pyStrip
    rw [List.dropWhile_cons, if_neg (by simp [hc])]
    rw [hys, List.reverse_append]
    simp only [List.reverse_cons, List.reverse_nil, List.nil_append, List.singleton_append]
    rw [List.dropWhile_cons, if_neg (by simp [hdw])]
    simp

namespace FAQPostProcessor

theorem capitalizeFirst_cons (c : Char) (rest : PyStr) :
    capitalizeFirst (c :: rest) = if pyIsLower c then pyToUpper c :: rest else c :: rest := rfl

theorem capitalizeFirst_idem (s : PyStr) :
    capitalizeFirst (capitalizeFirst s) = capitalizeFirst s := by
  cases s with
  | nil => rfl
  | cons c rest =>
    rw [capitalizeFirst_cons]
    by_cases h : pyIsLower c = true
    · rw [if_pos h, capitalizeFirst_cons, if_neg (by simp [pyIsLower_pyToUpper])]
    · rw [if_neg h, capitalizeFirst_cons, if_neg h]

theorem capitalizeFirst_length (s : PyStr) : (capitalizeFirst s).length = s.length := by
  cases s with
  | nil => rfl
  | cons c rest =>
    rw [capitalizeFirst_cons]
    split <;> rfl

theorem capitalizeFirst_ne_nil {s : PyStr} (h : s ≠ []) : capitalizeFirst s ≠ [] := by
  cases s with
  | nil => exact absurd rfl h
  | cons c rest =>
    rw [capitalizeFirst_cons]
    split <;> simp

theorem capitalizeFirst_getLast_qm (s : PyStr)
    (h : s.getLast? = some '?' ∨ s.getLast? = some '？') :
    (capitalizeFirst s).getLast? = s.getLast? := by
  cases s with
  | nil => rfl
  | cons c rest =>
    cases rest with
    | nil =>
      have hc : c = '?' ∨ c = '？' := by
        rcases h with h | h <;> simp at h <;> [exact Or.inl h; exact Or.inr h]
      rcases hc with rfl | rfl <;> decide
    | cons b rest2 =>
      rw [capitalizeFirst_cons]
      split
      · simp
      · rfl

theorem capitalizeFirst_head {s : PyStr} {c : Char} (h : s.head? = some c) :
    (capitalizeFirst s).head? = some (if pyIsLower c then pyToUpper c else c) := by
  cases s with
  | nil => simp at h
  | cons a rest =>
    simp at h
    subst h
    rw [capitalizeFirst_cons]
    split <;> simp_all

theorem addQuestionMark_getLast (s : PyStr) :
    (addQuestionMark s).getLast? = some '?' ∨ (addQuestionMark s).getLast? = some '？' := by
  unfold addQuestionMark
  by_cases h : (pyEndsWith s (("?").data) || pyEndsWith s (("？").data)) = true
  · rw [if_neg (by simp [h])]
    rcases Bool.or_eq_true_iff.mp h with h | h
    · exact Or.inl ((pyEndsWith_single s '?').mp h)
    · exact Or.inr ((pyEndsWith_single s '？').mp h)
  · rw [if_pos (by simp at h ⊢; exact h)]
    by_cases hw : questionWords.any (fun w => pyContains (s.map pyToLower) w) = true
    · rw [if_pos hw]
      exact Or.inr (List.getLast?_concat s)
    · rw [if_neg hw]
      exact Or.inl (List.getLast?_concat s)

theorem addQuestionMark_length (s : PyStr) :
    (addQuestionMark s).length ≤ s.length + 1 := by
  unfold addQuestionMark
  split
  · split <;> simp
  · simp

theorem addQuestionMark_ne_nil {s : PyStr} (h : s ≠ []) : addQuestionMark s ≠ [] := by
  unfold addQuestionMark
  split
  · split <;> simp
  · exact h

theorem addQuestionMark_head {s : PyStr} (h : s ≠ []) :
    (addQuestionMark s).head? = s.head? := by
  unfold addQuestionMark
  split
  · split <;> (cases s with | nil => exact absurd rfl h | cons a t => simp)
  · rfl

theorem shortenQuestion_of_le {s : PyStr} (h : s.length ≤ 100) : shortenQuestion s = s := by
  unfold shortenQuestion
  rw [if_neg (by omega)]

theorem firstSentence_ne_nil {s m : PyStr} (h : firstSentence s = some m) : m ≠ [] := by
  simp only [firstSentence] at h
  split at h
  · simp at h
  · split at h
    · simp at h
    · injection h with h1
      subst h1
      simp

theorem shortenQuestion_ne_nil {s : PyStr} (h : s ≠ []) : shortenQuestion s ≠ [] := by
  unfold shortenQuestion
  split
  · split
    · exact firstSentence_ne_nil (by assumption)
    · simp
  · exact h

theorem improve_question_eq (q : PyStr) (h1 : pyStrip q ≠ []) (h2 : (pyStrip q).length ≤ 99) :
    improve_question q = capitalizeFirst (addQuestionMark (pyStrip q)) := by
  have hq : ¬(q = [] ∨ pyStrip q = []) := by
    rintro (rfl | hc)
    · exact h1 rfl
    · exact h1 hc
  unfold improve_question
  rw [if_neg hq, shortenQuestion_of_le (le_trans (addQuestionMark_length _) (by omega))]

/-- The question part of claim C1: when the trimmed question is non-empty
and at most 99 characters, the normalized question ends in `?` or `？`. -/
theorem improve_question_ends (q : PyStr) (h1 : pyStrip q ≠ [])
    (h2 : (pyStrip q).length ≤ 99) :
    (improve_question q).getLast? = some '?' ∨ (improve_question q).getLast? = some '？' := by
  rw [improve_question_eq q h1 h2,
    capitalizeFirst_getLast_qm _ (addQuestionMark_getLast (pyStrip q))]
  exact addQuestionMark_getLast (pyStrip q)

theorem improve_question_ne_nil (q : PyStr) : improve_question q ≠ [] := by
  unfold improve_question
  split
  · decide
  · rename_i h
    push_neg at h
    exact capitalizeFirst_ne_nil (shortenQuestion_ne_nil (addQuestionMark_ne_nil h.2))

end FAQPostProcessor

namespace FAQPostProcessor

theorem improve_question_fixpoint (Y : PyStr) (hYnil : Y ≠ [])
    (hYl : Y.getLast? = some '?' ∨ Y.getLast? = some '？')
    (hYlen : Y.length ≤ 100) (hstrip : pyStrip Y = Y)
    (hcap : capitalizeFirst Y = Y) : improve_question Y = Y := by
  have hcond : ¬(Y = [] ∨ pyStrip Y = []) := by
    rintro (h | h)
    · exact hYnil h
    · rw [hstrip] at h
      exact hYnil h
  have haq : addQuestionMark Y = Y := by
    unfold addQuestionMark
    rw [if_neg]
    rcases hYl with h | h
    · have hb : pyEndsWith Y (("?").data) = true := (pyEndsWith_single Y '?').mpr h
      simp [hb]
    · have hb : pyEndsWith Y (("？").data) = true := (pyEndsWith_single Y '？').mpr h
      simp [hb]
  unfold improve_question
  rw [if_neg hcond, hstrip, haq, shortenQuestion_of_le hYlen, hcap]

/-- The question half of claim C2 (amended): normalization is idempotent
on questions whose trimmed form is non-empty and at most 99 characters. -/
theorem improve_question_idem (q : PyStr) (h1 : pyStrip q ≠ [])
    (h2 : (pyStrip q).length ≤ 99) :
    improve_question (improve_question q) = improve_question q := by
  have hfq := improve_question_eq q h1 h2
  have hXl := addQuestionMark_getLast (pyStrip q)
  have hXnil : addQuestionMark (pyStrip q) ≠ [] := addQuestionMark_ne_nil h1
  have hYl : (improve_question q).getLast? = some '?' ∨
      (improve_question q).getLast? = some '？' := improve_question_ends q h1 h2
  have hYnil : improve_question q ≠ [] := improve_question_ne_nil q
  have hYlen : (improve_question q).length ≤ 100 := by
    rw [hfq, capitalizeFirst_length]
    exact le_trans (addQuestionMark_length _) (by omega)
  have hYhead : ∀ c, (improve_question q).head? = some c → isPySpace c = false := by
    intro c hc
    obtain ⟨c0, t0, hst⟩ : ∃ c0 t0, pyStrip q = c0 :: t0 := by
      cases hcase : pyStrip q with
      | nil => exact absurd hcase h1
      | cons a t => exact ⟨a, t, rfl⟩
    have hc0 : isPySpace c0 = false := pyStrip_head_false hst
    have hXhead : (addQuestionMark (pyStrip q)).head? = some c0 := by
      rw [addQuestionMark_head h1, hst]
      rfl
    have hYh := capitalizeFirst_head hXhead
    rw [← hfq] at hYh
    rw [hYh] at hc
    injection hc with hc
    subst hc
    split
    · exact isPySpace_pyToUpper c0 hc0
    · exact hc0
  have hYlast : ∀ c, (improve_question q).getLast? = some c → isPySpace c = false := by
    intro c hc
    rcases hYl with h | h <;> rw [h] at hc <;> injection hc with hc <;> subst hc <;> decide
  have hstrip : pyStrip (improve_question q) = improve_question q :=
    pyStrip_eq_self hYhead hYlast
  have hcap : capitalizeFirst (improve_question q) = improve_question q := by
    rw [hfq]
    exact capitalizeFirst_idem _
  exact improve_question_fixpoint (improve_question q) hYnil hYl hYlen hstrip hcap

end FAQPostProcessor

theorem findSuffixIdx_spec {p : PyStr → Bool} :
    ∀ {l : PyStr} {i : Nat}, findSuffixIdx p l = some i →
      p (l.drop i) = true ∧ ∀ k, k < i → p (l.drop k) = false := by
  intro l
  induction l with
  | nil =>
    intro i h
    unfold findSuffixIdx at h
    split at h
    · injection h with h1
      subst h1
      refine ⟨by assumption, fun k hk => absurd hk (Nat.not_lt_zero k)⟩
    · simp at h
  | cons c t ih =>
    intro i h
    unfold findSuffixIdx at h
    split at h
    · injection h with h1
      subst h1
      refine ⟨by simpa using (by assumption), fun k hk => absurd hk (Nat.not_lt_zero k)⟩
    · rename_i hfail
      rcases Option.map_eq_some'.mp h with ⟨j, hj, rfl⟩
      rcases ih hj with ⟨hp, hmin⟩
      refine ⟨by simpa using hp, ?_⟩
      intro k hk
      cases k with
      | zero => simpa using Bool.not_eq_true _ |>.mp hfail
      | succ k2 =>
        have : k2 < j := by omega
        simpa using hmin k2 this

theorem findSuffixIdx_isSome {p : PyStr → Bool} :
    ∀ {l : PyStr}, (∃ k, p (l.drop k) = true) → (findSuffixIdx p l).isSome := by
  intro l
  induction l with
  | nil =>
    rintro ⟨k, hk⟩
    simp only [List.drop_nil] at hk
    unfold findSuffixIdx
    rw [if_pos hk]
    rfl
  | cons c t ih =>
    rintro ⟨k, hk⟩
    unfold findSuffixIdx
    by_cases hp : p (c :: t) = true
    · rw [if_pos hp]
      rfl
    · rw [if_neg hp]
      have hex : ∃ k2, p (t.drop k2) = true := by
        cases k with
        | zero => exact absurd hk hp
        | succ k2 => exact ⟨k2, by simpa using hk⟩
      rcases Option.isSome_iff_exists.mp (ih hex) with ⟨j, hj⟩
      rw [hj]
      rfl

theorem pyContains_iff {s t : PyStr} : pyContains s t = true ↔ t <:+: s := by
  unfold pyContains findInfix
  constructor
  · intro h
    rcases Option.isSome_iff_exists.mp h with ⟨i, hi⟩
    have hp := (findSuffixIdx_spec hi).1
    have hpre : t <+: s.drop i := List.isPrefixOf_iff_prefix.mp hp
    exact List.infix_iff_prefix_suffix.mpr ⟨s.drop i, hpre, List.drop_suffix i s⟩
  · rintro ⟨u, v, rfl⟩
    apply findSuffixIdx_isSome
    refine ⟨u.length, ?_⟩
    rw [List.append_assoc, List.drop_left]
    exact List.isPrefixOf_iff_prefix.mpr ⟨v, rfl⟩

theorem pyContains_append_right {r t : PyStr} (h : pyContains r t = true) (l : PyStr) :
    pyContains (l ++ r) t = true :=
  pyContains_iff.mpr ((pyContains_iff.mp h).trans (List.suffix_append l r).isInfix)

theorem pyContains_nil {t : PyStr} (h : t ≠ []) : pyContains [] t = false := by
  unfold pyContains findInfix findSuffixIdx
  rw [if_neg]
  · rfl
  · cases t with
    | nil => exact absurd rfl h
    | cons a b => simp

namespace FAQPostProcessor

theorem refSentence_contains_ref (source_type : PyStr) :
    pyContains (refSentence source_type) (("参照").data) = true := by
  unfold refSentence
  exact pyContains_append_right (by decide) _

theorem refSentence_ne_nil (source_type : PyStr) : refSentence source_type ≠ [] := by
  unfold refSentence
  simp

theorem refSentence_getLast (source_type : PyStr) :
    (refSentence source_type).getLast? = some '。' := by
  unfold refSentence
  rw [List.getLast?_append]
  have hc : (("を参照してください。").data).getLast? = some '。' := by decide
  rw [hc]
  rfl

theorem improve_answer_eq (answer source_type : PyStr) (source_url : Option PyStr)
    (h : ¬(answer = [] ∨ pyStrip answer = [])) :
    improve_answer answer source_type source_url =
      addSourceRef source_type source_url (addTerminator (stripAck (pyStrip answer))) := by
  unfold improve_answer
  rw [if_neg h]

theorem addTerminator_end (x : PyStr) :
    pyEndsWith (addTerminator x) ((".").data) = true ∨
    pyEndsWith (addTerminator x) (("。").data) = true ∨
    (addTerminator x = x ∧ pyEndsWith x ((".").data) = false ∧
     pyEndsWith x (("。").data) = false ∧
     (match x.getLast? with | some c => isAsciiAlnum c | none => false) = false ∧
     (match x.getLast? with | some c => isJapaneseEnd c | none => false) = false) := by
  unfold addTerminator
  by_cases h1 : (pyEndsWith x ((".").data) || pyEndsWith x (("。").data)) = true
  · rw [if_neg (by simp [h1])]
    rcases Bool.or_eq_true_iff.mp h1 with h | h
    · exact Or.inl h
    · exact Or.inr (Or.inl h)
  · have hb : (pyEndsWith x ((".").data) || pyEndsWith x (("。").data)) = false :=
      Bool.not_eq_true _ |>.mp h1
    rcases Bool.or_eq_false_iff.mp hb with ⟨hf1, hf2⟩
    rw [if_pos (by simp [hb])]
    by_cases h2 : (match x.getLast? with | some c => isAsciiAlnum c | none => false) = true
    · rw [if_pos h2]
      exact Or.inl ((pyEndsWith_single _ '.').mpr (List.getLast?_concat x))
    · rw [if_neg h2]
      by_cases h3 : (match x.getLast? with | some c => isJapaneseEnd c | none => false) = true
      · rw [if_pos h3]
        exact Or.inr (Or.inl ((pyEndsWith_single _ '。').mpr (List.getLast?_concat x)))
      · rw [if_neg h3]
        exact Or.inr (Or.inr ⟨rfl, hf1, hf2,
          Bool.not_eq_true _ |>.mp h2, Bool.not_eq_true _ |>.mp h3⟩)

theorem improve_answer_end (answer source_type : PyStr) (source_url : Option PyStr) :
    pyEndsWith (improve_answer answer source_type source_url) ((".").data) = true ∨
    pyEndsWith (improve_answer answer source_type source_url) (("。").data) = true ∨
    (pyEndsWith (improve_answer answer source_type source_url) ((".").data) = false ∧
     pyEndsWith (improve_answer answer source_type source_url) (("。").data) = false ∧
     (match (improve_answer answer source_type source_url).getLast? with
      | some c => isAsciiAlnum c | none => false) = false ∧
     (match (improve_answer answer source_type source_url).getLast? with
      | some c => isJapaneseEnd c | none => false) = false) := by
  by_cases h : answer = [] ∨ pyStrip answer = []
  · unfold improve_answer
    rw [if_pos h]
    right
    left
    decide
  · rw [improve_answer_eq answer source_type source_url h]
    unfold addSourceRef
    by_cases hc : (urlTruthy source_url &&
        !(refTerms.any (fun r =>
            pyContains (addTerminator (stripAck (pyStrip answer))) r))) = true
    · rw [if_pos hc]
      right
      left
      refine (pyEndsWith_single _ '。').mpr ?_
      rw [List.getLast?_append, refSentence_getLast]
      rfl
    · rw [if_neg (by simp at hc ⊢; exact hc)]
      rcases addTerminator_end (stripAck (pyStrip answer)) with h1 | h1 | ⟨heq, hf1, hf2, hm1, hm2⟩
      · exact Or.inl h1
      · exact Or.inr (Or.inl h1)
      · rw [heq]
        exact Or.inr (Or.inr ⟨hf1, hf2, hm1, hm2⟩)

end FAQPostProcessor

namespace FAQPostProcessor

theorem refTerm_mem_ne_nil {t : PyStr} (ht : t ∈ refTerms) : t ≠ [] := by
  simp only [refTerms, List.mem_cons, List.not_mem_nil, or_false] at ht
  rcases ht with rfl | rfl | rfl | rfl | rfl | rfl <;> decide

/-- The answer part of claim C1: with a truthy `source_url` every
normalized answer is non-empty and either mentions a reference term or is
the fallback sentence. -/
theorem improve_answer_url_props (answer source_type : PyStr) (source_url : Option PyStr)
    (hu : urlTruthy source_url = true) :
    improve_answer answer source_type source_url ≠ [] ∧
    (refTerms.any (fun t =>
        pyContains (improve_answer answer source_type source_url) t) = true ∨
      improve_answer answer source_type source_url = ansSentinel) := by
  by_cases h : answer = [] ∨ pyStrip answer = []
  · unfold improve_answer
    rw [if_pos h]
    exact ⟨by decide, Or.inr rfl⟩
  · rw [improve_answer_eq answer source_type source_url h]
    unfold addSourceRef
    by_cases hr : refTerms.any (fun t =>
        pyContains (addTerminator (stripAck (pyStrip answer))) t) = true
    · rw [if_neg (by simp [hr])]
      have hT : addTerminator (stripAck (pyStrip answer)) ≠ [] := by
        intro hn
        rcases List.any_eq_true.mp hr with ⟨t, ht, hct⟩
        rw [hn] at hct
        exact absurd hct (by rw [pyContains_nil (refTerm_mem_ne_nil ht)]; simp)
      exact ⟨hT, Or.inl hr⟩
    · rw [if_pos (by simp [hu, hr])]
      refine ⟨by simp [refSentence_ne_nil], Or.inl ?_⟩
      apply List.any_eq_true.mpr
      refine ⟨("参照").data, by decide, ?_⟩
      exact pyContains_append_right (refSentence_contains_ref source_type) _

/-- The answer half of claim C2 (amended): a normalized answer that is
non-empty, trim-stable, not re-matched by the leading-acknowledgment
removal, and (when the url is truthy) already mentions a reference term,
is a fixed point of normalization. -/
theorem improve_answer_idem (answer source_type : PyStr) (source_url : Option PyStr)
    (h1 : improve_answer answer source_type source_url ≠ [])
    (h2 : pyStrip (improve_answer answer source_type source_url) =
      improve_answer answer source_type source_url)
    (h3 : stripAck (improve_answer answer source_type source_url) =
      improve_answer answer source_type source_url)
    (h4 : urlTruthy source_url = true →
      refTerms.any (fun t =>
        pyContains (improve_answer answer source_type source_url) t) = true) :
    improve_answer (improve_answer answer source_type source_url) source_type source_url =
      improve_answer answer source_type source_url := by
  have hcond : ¬(improve_answer answer source_type source_url = [] ∨
      pyStrip (improve_answer answer source_type source_url) = []) := by
    rintro (h | h)
    · exact h1 h
    · rw [h2] at h
      exact h1 h
  rw [improve_answer_eq _ source_type source_url hcond, h2, h3]
  have hterm : addTerminator (improve_answer answer source_type source_url) =
      improve_answer answer source_type source_url := by
    rcases improve_answer_end answer source_type source_url with h | h | ⟨hf1, hf2, hm1, hm2⟩
    · unfold addTerminator
      rw [if_neg (by simp [h])]
    · unfold addTerminator
      rw [if_neg (by simp [h])]
    · unfold addTerminator
      rw [if_pos (by simp [hf1, hf2]), if_neg (by simp [hm1]), if_neg (by simp [hm2])]
  rw [hterm]
  unfold addSourceRef
  by_cases hu : urlTruthy source_url = true
  · rw [if_neg (by simp [h4 hu])]
  · rw [if_neg (by simp at hu; simp [hu])]

end FAQPostProcessor

namespace FAQPostProcessor

/-- Claim C1 (amended): every record returned by `process` has a non-empty
question; its question is the normalization of its source entry's
question, and ends in `?` or `？` whenever that entry's trimmed question
is non-empty and at most 99 characters long; and when `source_url` is
truthy its answer is non-empty and either contains one of the fixed
reference terms or is the fallback answer. -/
theorem process_record_invariants (α : Type) (faqs : List (Faq α)) (source_type : PyStr)
    (source_url : Option PyStr) (r : Faq α)
    (hr : r ∈ process faqs source_type source_url) :
    r.question ≠ [] ∧
    (∃ e, e ∈ faqs ∧ r.question = improve_question e.question ∧
      (pyStrip e.question ≠ [] → (pyStrip e.question).length ≤ 99 →
        r.question.getLast? = some '?' ∨ r.question.getLast? = some '？')) ∧
    (urlTruthy source_url = true → r.answer ≠ [] ∧
      (refTerms.any (fun t => pyContains r.answer t) = true ∨ r.answer = ansSentinel)) := by
  rcases process_mem faqs source_type source_url r hr with
    ⟨e, he, _, _, _, hq, e2, he2, _, _, ha⟩
  refine ⟨?_, ⟨e, he, hq, ?_⟩, ?_⟩
  · rw [hq]
    exact improve_question_ne_nil e.question
  · intro hh1 hh2
    rw [hq]
    exact improve_question_ends e.question hh1 hh2
  · intro hu
    rw [ha]
    exact improve_answer_url_props e2.answer source_type source_url hu

/-- Claim C1 counterexample: a whitespace-only question becomes the
sentinel `不明な質問`, which ends with neither `?` nor `？`, yet the record
is returned. -/
theorem process_record_invariants_counterexample :
    (⟨("不明な質問").data, ("a.").data, (0 : Nat)⟩ : Faq Nat) ∈
      process [⟨(" ").data, ("a").data, 0⟩] (("pdf").data) none ∧
    (("不明な質問").data).getLast? ≠ some '?' ∧
    (("不明な質問").data).getLast? ≠ some '？' := by decide

theorem process_record_invariants_witness :
    (⟨("Abc?").data,
      ("xyz.\n\n詳細については元のドキュメントを参照してください。").data,
      (5 : Nat)⟩ : Faq Nat).question ≠ [] ∧
    (∃ e, e ∈ [(⟨("abc").data, ("xyz").data, (5 : Nat)⟩ : Faq Nat)] ∧
      (⟨("Abc?").data,
        ("xyz.\n\n詳細については元のドキュメントを参照してください。").data,
        (5 : Nat)⟩ : Faq Nat).question = improve_question e.question ∧
      (pyStrip e.question ≠ [] → (pyStrip e.question).length ≤ 99 →
        (⟨("Abc?").data,
          ("xyz.\n\n詳細については元のドキュメントを参照してください。").data,
          (5 : Nat)⟩ : Faq Nat).question.getLast? = some '?' ∨
        (⟨("Abc?").data,
          ("xyz.\n\n詳細については元のドキュメントを参照してください。").data,
          (5 : Nat)⟩ : Faq Nat).question.getLast? = some '？')) ∧
    (urlTruthy (some (("u").data)) = true →
      (⟨("Abc?").data,
        ("xyz.\n\n詳細については元のドキュメントを参照してください。").data,
        (5 : Nat)⟩ : Faq Nat).answer ≠ [] ∧
      (refTerms.any (fun t => pyContains
          (⟨("Abc?").data,
            ("xyz.\n\n詳細については元のドキュメントを参照してください。").data,
            (5 : Nat)⟩ : Faq Nat).answer t) = true ∨
        (⟨("Abc?").data,
          ("xyz.\n\n詳細については元のドキュメントを参照してください。").data,
          (5 : Nat)⟩ : Faq Nat).answer = ansSentinel)) :=
  process_record_invariants Nat [⟨("abc").data, ("xyz").data, 5⟩] (("pdf").data)
    (some (("u").data))
    ⟨("Abc?").data,
     ("xyz.\n\n詳細については元のドキュメントを参照してください。").data, 5⟩
    (by decide)

/-- Claim C2 (amended): question normalization is idempotent on questions
whose trimmed form is non-empty and at most 99 characters long; answer
normalization is idempotent whenever its first application yields an
answer that is non-empty, trim-stable, not re-matched by the
leading-acknowledgment removal, and — when `source_url` is truthy —
already mentions a reference term. -/
theorem normalization_idempotent :
    (∀ q : PyStr, pyStrip q ≠ [] → (pyStrip q).length ≤ 99 →
      improve_question (improve_question q) = improve_question q) ∧
    (∀ (answer source_type : PyStr) (source_url : Option PyStr),
      improve_answer answer source_type source_url ≠ [] →
      pyStrip (improve_answer answer source_type source_url) =
        improve_answer answer source_type source_url →
      stripAck (improve_answer answer source_type source_url) =
        improve_answer answer source_type source_url →
      (urlTruthy source_url = true →
        refTerms.any (fun t =>
          pyContains (improve_answer answer source_type source_url) t) = true) →
      improve_answer (improve_answer answer source_type source_url) source_type source_url =
        improve_answer answer source_type source_url) :=
  ⟨improve_question_idem, improve_answer_idem⟩

/-- Claim C2 counterexample: normalizing a whitespace-only question once
gives the sentinel `不明な質問`; normalizing it again appends `?`. -/
theorem normalization_idempotent_counterexample :
    improve_question (improve_question ((" ").data)) ≠ improve_question ((" ").data) := by
  decide

theorem normalization_idempotent_witness :
    improve_question (improve_question (("Abc").data)) = improve_question (("Abc").data) ∧
    improve_answer
        (improve_answer (("そうです").data) (("pdf").data) (some (("u").data)))
        (("pdf").data) (some (("u").data)) =
      improve_answer (("そうです").data) (("pdf").data) (some (("u").data)) :=
  ⟨(normalization_idempotent).1 (("Abc").data) (by decide) (by decide),
   (normalization_idempotent).2 (("そうです").data) (("pdf").data) (some (("u").data))
     (by decide) (by decide) (by decide) (fun _ => by decide)⟩

end FAQPostProcessor

namespace LLMOutputParser

/-- Claim C4: `parse_faq_response` is total (the embedding is a function);
if the candidate payload fails to parse or parses to a non-array value the
result is empty, and when it parses to an array the result is exactly the
order-preserving filter keeping object elements that contain both a
`question` and an `answer` key. -/
theorem parse_faq_response_spec (llm_response : PyStr) :
    (jsonLoads (faqPayload llm_response) = none → parse_faq_response llm_response = []) ∧
    (∀ l, jsonLoads (faqPayload llm_response) = some (Json.arr l) →
      parse_faq_response llm_response = l.filter isFaqDict) ∧
    (∀ v, jsonLoads (faqPayload llm_response) = some v → (∀ l, v ≠ Json.arr l) →
      parse_faq_response llm_response = []) := by
  refine ⟨?_, ?_, ?_⟩
  · intro h
    unfold parse_faq_response
    rw [h]
  · intro l h
    unfold parse_faq_response
    rw [h]
  · intro v h hv
    unfold parse_faq_response
    rw [h]
    cases v with
    | arr l => exact absurd rfl (hv l)
    | null => rfl
    | bool b => rfl
    | num r => rfl
    | str s => rfl
    | obj m => rfl

theorem parse_faq_response_spec_witness :
    parse_faq_response
        (("```json\n[\x7b\"question\": \"q\", \"answer\": \"a\"\x7d, 5]\n```").data) =
      [Json.obj [(("question").data, Json.str (("q").data)),
                 (("answer").data, Json.str (("a").data))],
       Json.num (("5").data)].filter isFaqDict :=
  (parse_faq_response_spec
      (("```json\n[\x7b\"question\": \"q\", \"answer\": \"a\"\x7d, 5]\n```").data)).2.1
    [Json.obj [(("question").data, Json.str (("q").data)),
               (("answer").data, Json.str (("a").data))],
     Json.num (("5").data)] rfl

end LLMOutputParser

namespace LLMOutputParser

theorem pyStrip_infix_of_self (l : PyStr) : pyStrip l <:+: l := by
  have hpre : pyStrip l <+: l.dropWhile isPySpace := by
    have hsuf : (l.dropWhile isPySpace).reverse.dropWhile isPySpace <:+
        (l.dropWhile isPySpace).reverse := List.dropWhile_suffix _
    have h2 := List.reverse_prefix.mpr hsuf
    simpa [pyStrip] using h2
  exact List.infix_iff_prefix_suffix.mpr
    ⟨l.dropWhile isPySpace, hpre, List.dropWhile_suffix _⟩

/-- The content of a matched fenced block never contains a fence, hence
never contains the tag ```json (the closing fence is the first fence in
the remaining text). -/
theorem fenceMatch_no_fence {s m : PyStr} (h : fenceMatch s = some m) :
    pyContains (pyStrip m) fencedJsonLit = false := by
  unfold fenceMatch at h
  cases h1 : findInfix s backticksLit with
  | none => rw [h1] at h; simp at h
  | some i =>
    rw [h1] at h
    dsimp only at h
    cases h2 : findInfix
        (if pyStartsWith (s.drop (i + 3)) jsonTagLit
         then (s.drop (i + 3)).drop 4 else s.drop (i + 3)) backticksLit with
    | none => rw [h2] at h; simp at h
    | some j =>
      rw [h2] at h
      dsimp only at h
      injection h with h
      subst h
      set rest2 := (if pyStartsWith (s.drop (i + 3)) jsonTagLit
         then (s.drop (i + 3)).drop 4 else s.drop (i + 3)) with hrest2
      by_contra hcon
      have hcon2 : pyContains (pyStrip (rest2.take j)) fencedJsonLit = true := by
        cases hc : pyContains (pyStrip (rest2.take j)) fencedJsonLit
        · exact absurd hc hcon
        · rfl
      have hinf : fencedJsonLit <:+: rest2.take j :=
        (pyContains_iff.mp hcon2).trans (pyStrip_infix_of_self _)
      have hbt : backticksLit <:+: rest2.take j := by
        refine List.IsInfix.trans ?_ hinf
        exact (List.IsPrefix.isInfix ⟨(("json").data), rfl⟩)
      rcases hbt with ⟨u, v, huv⟩
      have hlen : u.length + backticksLit.length + v.length = (rest2.take j).length := by
        rw [← huv]
        simp [List.length_append]
        omega
      have hjlt : u.length < j := by
        have ht : (rest2.take j).length ≤ j := by
          simp [List.length_take]
        have : backticksLit.length = 3 := by decide
        omega
      have hpref : backticksLit.isPrefixOf (rest2.drop u.length) = true := by
        apply List.isPrefixOf_iff_prefix.mpr
        refine ⟨v ++ rest2.drop j, ?_⟩
        have hsplit : rest2 = (rest2.take j) ++ rest2.drop j := by
          rw [List.take_append_drop]
        calc backticksLit ++ (v ++ rest2.drop j)
            = (backticksLit ++ v) ++ rest2.drop j := by rw [List.append_assoc]
          _ = (u ++ (backticksLit ++ v) ++ rest2.drop j).drop u.length := by
              rw [List.append_assoc u, List.drop_left]
          _ = rest2.drop u.length := by
              rw [← List.append_assoc, huv, ← hsplit]
      have hmin := (findSuffixIdx_spec h2).2 u.length hjlt
      unfold findInfix at hmin
      rw [hpref] at hmin
      simp at hmin

theorem payloadStep2_cases (s : PyStr) :
    ((pyContains s cotMarker = false ∨
        pyContains (payloadStep1 s) fencedJsonLit = true) →
      payloadStep2 s = payloadStep1 s) ∧
    (pyContains s cotMarker = true →
      pyContains (payloadStep1 s) fencedJsonLit = false →
      payloadStep2 s = (match pySplit s cotSplitSep with
        | _ :: p1 :: _ => extract_json_from_markdown p1
        | _ => payloadStep1 s)) := by
  constructor
  · intro h
    unfold payloadStep2
    rcases h with h | h
    · rw [if_neg (by simp [h])]
    · rw [if_neg (by simp [h])]
  · intro h1 h2
    unfold payloadStep2
    rw [if_pos (by simp [h1, h2])]

/-- Claim C7 (amended): the chain-of-thought re-search runs exactly when
the response contains the marker and the current payload does not contain
the literal substring ```json; since the content of a found fenced block
never contains a fence, finding a fenced block in step 1 does not
suppress the re-search — the payload can be replaced. -/
theorem cot_research_condition (s : PyStr) :
    ((pyContains s cotMarker = false ∨
        pyContains (payloadStep1 s) fencedJsonLit = true) →
      payloadStep2 s = payloadStep1 s) ∧
    (pyContains s cotMarker = true →
      pyContains (payloadStep1 s) fencedJsonLit = false →
      payloadStep2 s = (match pySplit s cotSplitSep with
        | _ :: p1 :: _ => extract_json_from_markdown p1
        | _ => payloadStep1 s)) ∧
    (∀ m, fenceMatch s = some m → pyContains (pyStrip m) fencedJsonLit = false) := by
  refine ⟨(payloadStep2_cases s).1, (payloadStep2_cases s).2, ?_⟩
  intro m hm
  exact fenceMatch_no_fence hm

/-- Claim C7 counterexample: step 1 finds a fenced block (payload `[1]`),
the response contains the reasoning marker, and the final payload is the
block after the marker (`[2]`) — the marker does not leave the payload
unchanged. -/
theorem cot_research_counterexample :
    (fenceMatch (("```json\n[1]\n```\n思考過程:\n```json\n[2]\n```").data)).isSome = true ∧
    payloadStep1 (("```json\n[1]\n```\n思考過程:\n```json\n[2]\n```").data) = ("[1]").data ∧
    faqPayload (("```json\n[1]\n```\n思考過程:\n```json\n[2]\n```").data) = ("[2]").data ∧
    ("[2]").data ≠ ("[1]").data := by decide

theorem cot_research_condition_witness :
    payloadStep2 (("hello").data) = payloadStep1 (("hello").data) ∧
    payloadStep2 (("```json\n[1]\n```\n思考過程:\n```json\n[2]\n```").data) =
      (match pySplit (("```json\n[1]\n```\n思考過程:\n```json\n[2]\n```").data) cotSplitSep with
        | _ :: p1 :: _ => extract_json_from_markdown p1
        | _ => payloadStep1 (("```json\n[1]\n```\n思考過程:\n```json\n[2]\n```").data)) ∧
    pyContains (pyStrip (("\n[1]\n").data)) fencedJsonLit = false :=
  ⟨(cot_research_condition (("hello").data)).1 (Or.inl (by decide)),
   (cot_research_condition (("```json\n[1]\n```\n思考過程:\n```json\n[2]\n```").data)).2.1
     (by decide) (by decide),
   (cot_research_condition (("```json\n[1]\n```\n思考過程:\n```json\n[2]\n```").data)).2.2
     (("\n[1]\n").data) (by decide)⟩

end LLMOutputParser

namespace PDFProcessor

theorem wordLoop_spec (pn maxSize : Nat) (W : List PyStr) :
    ∀ (ws : List PyStr) (cur : PyStr) (acc : List Chunk),
      (∀ w ∈ ws, w ∈ W) →
      (cur.length ≤ maxSize ∨ cur ∈ W) →
      (∀ c ∈ (wordLoop pn maxSize ws cur acc).1,
        c ∈ acc ∨ (c.page_num = pn ∧
          (c.text.length ≤ maxSize ∨ (c.text ∈ W ∧ c.text.length > maxSize)))) ∧
      ((wordLoop pn maxSize ws cur acc).2.length ≤ maxSize ∨
        (wordLoop pn maxSize ws cur acc).2 ∈ W) := by
  intro ws
  induction ws with
  | nil =>
    intro cur acc _ hcur
    exact ⟨fun c hc => Or.inl hc, hcur⟩
  | cons w ws ih =>
    intro cur acc hsub hcur
    have hw : w ∈ W := hsub w (by simp)
    have hrest : ∀ x ∈ ws, x ∈ W := fun x hx => hsub x (by simp [hx])
    by_cases h : cur.length + w.length + 1 ≤ maxSize
    · have heq : wordLoop pn maxSize (w :: ws) cur acc =
          wordLoop pn maxSize ws (if cur = [] then w else cur ++ spaceSep ++ w) acc := by
        simp only [wordLoop, if_pos h]
      rw [heq]
      apply ih _ acc hrest
      by_cases hc : cur = []
      · rw [if_pos hc]
        subst hc
        left
        simp at h
        omega
      · rw [if_neg hc]
        left
        have h1 : (cur ++ spaceSep ++ w).length = cur.length + 1 + w.length := by
          simp [spaceSep, List.length_append]
          omega
        omega
    · have heq : wordLoop pn maxSize (w :: ws) cur acc =
          wordLoop pn maxSize ws w (acc ++ [mkChunk pn cur]) := by
        simp only [wordLoop, if_neg h]
      rw [heq]
      have hres := ih w (acc ++ [mkChunk pn cur]) hrest (Or.inr hw)
      refine ⟨?_, hres.2⟩
      intro c hc
      rcases hres.1 c hc with hc2 | hc2
      · rcases List.mem_append.mp hc2 with hc3 | hc3
        · exact Or.inl hc3
        · rcases List.mem_singleton.mp hc3 with rfl
          refine Or.inr ⟨rfl, ?_⟩
          dsimp only [mkChunk]
          rcases hcur with hle | hmem
          · exact Or.inl hle
          · by_cases hlen : cur.length ≤ maxSize
            · exact Or.inl hlen
            · exact Or.inr ⟨hmem, by omega⟩
      · exact Or.inr hc2

theorem paraLoop_spec (pn maxSize : Nat) (PS : List PyStr) :
    ∀ (ps : List PyStr) (cur : PyStr) (acc : List Chunk),
      (∀ p ∈ ps, p ∈ PS) →
      (cur.length ≤ maxSize ∨ ∃ p ∈ PS, cur ∈ pySplit p spaceSep) →
      (∀ c ∈ (paraLoop pn maxSize ps cur acc).1,
        c ∈ acc ∨ (c.page_num = pn ∧
          (c.text.length ≤ maxSize ∨
            ∃ p ∈ PS, c.text ∈ pySplit p spaceSep ∧ c.text.length > maxSize))) ∧
      ((paraLoop pn maxSize ps cur acc).2.length ≤ maxSize ∨
        ∃ p ∈ PS, (paraLoop pn maxSize ps cur acc).2 ∈ pySplit p spaceSep) := by
  intro ps
  induction ps with
  | nil =>
    intro cur acc _ hcur
    exact ⟨fun c hc => Or.inl hc, hcur⟩
  | cons para ps ih =>
    intro cur acc hsub hcur
    have hp : para ∈ PS := hsub para (by simp)
    have hrest : ∀ x ∈ ps, x ∈ PS := fun x hx => hsub x (by simp [hx])
    have hcurQ : cur.length ≤ maxSize ∨
        (cur ∈ (pySplit para spaceSep) ∧ False) ∨
        ∃ p ∈ PS, cur ∈ pySplit p spaceSep := by
      rcases hcur with h | h
      · exact Or.inl h
      · exact Or.inr (Or.inr h)
    by_cases h : cur.length + para.length + 2 ≤ maxSize
    · have heq : paraLoop pn maxSize (para :: ps) cur acc =
          paraLoop pn maxSize ps (if cur = [] then para else cur ++ paraSep ++ para) acc := by
        simp only [paraLoop, if_pos h]
      rw [heq]
      apply ih _ acc hrest
      by_cases hc : cur = []
      · rw [if_pos hc]
        subst hc
        left
        simp at h
        omega
      · rw [if_neg hc]
        left
        have h1 : (cur ++ paraSep ++ para).length = cur.length + 2 + para.length := by
          simp [paraSep, List.length_append]
          omega
        omega
    · have hacc1 : ∀ c ∈ (if cur = [] then acc else acc ++ [mkChunk pn cur]),
          c ∈ acc ∨ (c.page_num = pn ∧
            (c.text.length ≤ maxSize ∨
              ∃ p ∈ PS, c.text ∈ pySplit p spaceSep ∧ c.text.length > maxSize)) := by
        intro c hc
        split at hc
        · exact Or.inl hc
        · rcases List.mem_append.mp hc with hc2 | hc2
          · exact Or.inl hc2
          · rcases List.mem_singleton.mp hc2 with rfl
            refine Or.inr ⟨rfl, ?_⟩
            dsimp only [mkChunk]
            rcases hcur with hle | ⟨p, hpPS, hmem⟩
            · exact Or.inl hle
            · by_cases hlen : cur.length ≤ maxSize
              · exact Or.inl hlen
              · exact Or.inr ⟨p, hpPS, hmem, by omega⟩
      by_cases hbig : para.length > maxSize
      · have hw := wordLoop_spec pn maxSize (pySplit para spaceSep) (pySplit para spaceSep)
          [] (if cur = [] then acc else acc ++ [mkChunk pn cur])
          (fun x hx => hx) (Or.inl (by simp))
        have heq : paraLoop pn maxSize (para :: ps) cur acc =
            paraLoop pn maxSize ps
              (wordLoop pn maxSize (pySplit para spaceSep) []
                (if cur = [] then acc else acc ++ [mkChunk pn cur])).2
              (wordLoop pn maxSize (pySplit para spaceSep) []
                (if cur = [] then acc else acc ++ [mkChunk pn cur])).1 := by
          simp only [paraLoop, if_neg h, if_pos hbig]
        rw [heq]
        have hcur2 : (wordLoop pn maxSize (pySplit para spaceSep) []
            (if cur = [] then acc else acc ++ [mkChunk pn cur])).2.length ≤ maxSize ∨
            ∃ p ∈ PS, (wordLoop pn maxSize (pySplit para spaceSep) []
              (if cur = [] then acc else acc ++ [mkChunk pn cur])).2 ∈ pySplit p spaceSep := by
          rcases hw.2 with h2 | h2
          · exact Or.inl h2
          · exact Or.inr ⟨para, hp, h2⟩
        have hres := ih
          (wordLoop pn maxSize (pySplit para spaceSep) []
            (if cur = [] then acc else acc ++ [mkChunk pn cur])).2
          (wordLoop pn maxSize (pySplit para spaceSep) []
            (if cur = [] then acc else acc ++ [mkChunk pn cur])).1
          hrest hcur2
        refine ⟨?_, hres.2⟩
        intro c hc
        rcases hres.1 c hc with hc2 | hc2
        · rcases hw.1 c hc2 with hc3 | hc3
          · exact hacc1 c hc3
          · exact Or.inr ⟨hc3.1, by
              rcases hc3.2 with h4 | h4
              · exact Or.inl h4
              · exact Or.inr ⟨para, hp, h4.1, h4.2⟩⟩
        · exact Or.inr hc2
      · have heq : paraLoop pn maxSize (para :: ps) cur acc =
            paraLoop pn maxSize ps para
              (if cur = [] then acc else acc ++ [mkChunk pn cur]) := by
          simp only [paraLoop, if_neg h, if_neg hbig]
        rw [heq]
        have hres := ih para (if cur = [] then acc else acc ++ [mkChunk pn cur])
          hrest (Or.inl (by omega))
        refine ⟨?_, hres.2⟩
        intro c hc
        rcases hres.1 c hc with hc2 | hc2
        · exact hacc1 c hc2
        · exact Or.inr hc2

theorem splitPage_mem (maxSize : Nat) (pg : Chunk) :
    ∀ c ∈ splitPage maxSize pg,
      c.page_num = pg.page_num ∧
      (c.text.length ≤ maxSize ∨
        ∃ p ∈ pySplit pg.text paraSep, c.text ∈ pySplit p spaceSep ∧
          c.text.length > maxSize) := by
  intro c hc
  unfold splitPage at hc
  split at hc
  · rename_i hle
    rcases List.mem_singleton.mp hc with rfl
    exact ⟨rfl, Or.inl hle⟩
  · have hpl := paraLoop_spec pg.page_num maxSize (pySplit pg.text paraSep)
      (pySplit pg.text paraSep) [] [] (fun x hx => hx) (Or.inl (by simp))
    dsimp only at hc
    split at hc
    · rcases hpl.1 c hc with hc2 | hc2
      · exact absurd hc2 (List.not_mem_nil c)
      · exact ⟨hc2.1, hc2.2⟩
    · rcases List.mem_append.mp hc with hc2 | hc2
      · rcases hpl.1 c hc2 with hc3 | hc3
        · exact absurd hc3 (List.not_mem_nil c)
        · exact ⟨hc3.1, hc3.2⟩
      · rcases List.mem_singleton.mp hc2 with rfl
        refine ⟨rfl, ?_⟩
        dsimp only [mkChunk]
        rcases hpl.2 with h2 | ⟨p, hpPS, hmem⟩
        · exact Or.inl h2
        · by_cases hlen : (paraLoop pg.page_num maxSize (pySplit pg.text paraSep)
              [] []).2.length ≤ maxSize
          · exact Or.inl hlen
          · exact Or.inr ⟨p, hpPS, hmem, by omega⟩

theorem splitGo_eq (maxSize : Nat) :
    ∀ (l : List Chunk) (acc : List Chunk),
      splitGo maxSize l acc = acc ++ (l.map (splitPage maxSize)).flatten := by
  intro l
  induction l with
  | nil => intro acc; simp [splitGo]
  | cons pg rest ih =>
    intro acc
    rw [splitGo, ih]
    simp

/-- Claim C5: `_split_into_chunks` processes pages independently in order;
a page whose text fits in `max_chunk_size` becomes exactly one chunk whose
text is the page text; every chunk carries its page's `page_num`; and
every chunk respects the size bound except single space-free words (words
of some paragraph's space-split) longer than the bound. -/
theorem split_into_chunks_spec :
    (∀ (pages : List Chunk) (maxSize : Nat),
      split_into_chunks pages maxSize = (pages.map (splitPage maxSize)).flatten) ∧
    (∀ (maxSize : Nat) (pg : Chunk), pg.text.length ≤ maxSize →
      splitPage maxSize pg = [⟨pg.page_num, pg.text, pg.text.length⟩]) ∧
    (∀ (maxSize : Nat) (pg : Chunk) (c : Chunk), c ∈ splitPage maxSize pg →
      c.page_num = pg.page_num ∧
      (c.text.length ≤ maxSize ∨
        ∃ p ∈ pySplit pg.text paraSep, c.text ∈ pySplit p spaceSep ∧
          c.text.length > maxSize)) := by
  refine ⟨?_, ?_, ?_⟩
  · intro pages maxSize
    exact splitGo_eq maxSize pages []
  · intro maxSize pg hle
    unfold splitPage
    rw [if_pos hle]
    rfl
  · intro maxSize pg c hc
    exact splitPage_mem maxSize pg c hc

theorem split_into_chunks_spec_witness :
    split_into_chunks [⟨1, ("hi").data, 2⟩, ⟨2, ("xxxxxxxxxxxxxxx\n\nyy").data, 19⟩] 10 =
      ([⟨1, ("hi").data, 2⟩, ⟨2, ("xxxxxxxxxxxxxxx\n\nyy").data, 19⟩].map
        (splitPage 10)).flatten ∧
    splitPage 10 ⟨1, ("hi").data, 2⟩ = [⟨1, ("hi").data, (("hi").data).length⟩] ∧
    ((⟨2, ("xxxxxxxxxxxxxxx").data, 15⟩ : Chunk).page_num =
        (⟨2, ("xxxxxxxxxxxxxxx\n\nyy").data, 19⟩ : Chunk).page_num ∧
      ((("xxxxxxxxxxxxxxx").data).length ≤ 10 ∨
        ∃ p ∈ pySplit (("xxxxxxxxxxxxxxx\n\nyy").data) paraSep,
          ("xxxxxxxxxxxxxxx").data ∈ pySplit p spaceSep ∧
          (("xxxxxxxxxxxxxxx").data).length > 10)) :=
  ⟨(split_into_chunks_spec).1 [⟨1, ("hi").data, 2⟩, ⟨2, ("xxxxxxxxxxxxxxx\n\nyy").data, 19⟩] 10,
   (split_into_chunks_spec).2.1 10 ⟨1, ("hi").data, 2⟩ (by decide),
   (split_into_chunks_spec).2.2 10 ⟨2, ("xxxxxxxxxxxxxxx\n\nyy").data, 19⟩
     ⟨2, ("xxxxxxxxxxxxxxx").data, 15⟩ (by decide)⟩

end PDFProcessor

namespace PDFTextProcessor

theorem headerCond1_isSome (lines : List PyStr) (i : Nat) (line : PyStr) :
    (headerCond1 lines i line).isSome = true := by
  unfold headerCond1
  by_cases h1 : (pyStrip line).length < 50 ∧ pyStrip line ≠ []
  · rw [if_pos h1]
    by_cases h2 : i + 1 < lines.length
    · rw [if_pos h2]
      obtain ⟨nxt, hn⟩ : ∃ nxt, lines.get? (i + 1) = some nxt :=
        ⟨lines.get ⟨i + 1, h2⟩, List.get?_eq_get h2⟩
      rw [hn]
      have hb : ∃ b, (if pyStrip nxt = [] then some true
          else
            match (pyStrip nxt).head? with
            | none => none
            | some c => some (pyIsDigit c)) = some b := by
        by_cases h3 : pyStrip nxt = []
        · exact ⟨true, by rw [if_pos h3]⟩
        · obtain ⟨c0, t0, hct⟩ : ∃ c0 t0, pyStrip nxt = c0 :: t0 := by
            cases hcase : pyStrip nxt with
            | nil => exact absurd hcase h3
            | cons a t => exact ⟨a, t, rfl⟩
          refine ⟨pyIsDigit c0, ?_⟩
          rw [if_neg h3, hct]
          rfl
      rcases hb with ⟨b, hb⟩
      dsimp only
      rw [hb]
      dsimp only
      by_cases h4 : b = true
      · rw [if_pos h4]
        obtain ⟨lc, hlc⟩ : ∃ lc, (pyStrip line).getLast? = some lc :=
          Option.isSome_iff_exists.mp (List.getLast?_isSome.mpr h1.2)
        rw [hlc]
        rfl
      · rw [if_neg h4]
        rfl
    · rw [if_neg h2]
      rfl
  · rw [if_neg h1]
    rfl

theorem headersGo_isSome (lines : List PyStr) :
    ∀ (l : List PyStr) (i : Nat), (headersGo lines i l).isSome = true := by
  intro l
  induction l with
  | nil => intro i; rfl
  | cons line rest ih =>
    intro i
    unfold headersGo
    obtain ⟨c1, hc1⟩ : ∃ c1, headerCond1 lines i line = some c1 :=
      Option.isSome_iff_exists.mp (headerCond1_isSome lines i line)
    rw [hc1]
    obtain ⟨tail, ht⟩ : ∃ tail, headersGo lines (i + 1) rest = some tail :=
      Option.isSome_iff_exists.mp (ih (i + 1))
    rw [ht]
    rfl

theorem pdfTryBody_isSome (text : PyStr) : (pdfTryBody text).isSome = true := by
  unfold pdfTryBody
  dsimp only
  obtain ⟨hs, hh⟩ : ∃ hs, headersGo (pySplit text (("\n").data)) 0
      (pySplit text (("\n").data)) = some hs :=
    Option.isSome_iff_exists.mp (headersGo_isSome _ _ 0)
  rw [hh]
  rfl

end PDFTextProcessor

namespace SlackConversationProcessor

theorem qaGo_isSome (convo : List SlackMsg) :
    ∀ (idxs : List Nat), (∀ i ∈ idxs, i + 1 < convo.length) →
      (qaGo convo idxs).isSome = true := by
  intro idxs
  induction idxs with
  | nil => intro _; rfl
  | cons i rest ih =>
    intro hall
    have hi : i + 1 < convo.length := hall i (by simp)
    unfold qaGo
    obtain ⟨cur, hcur⟩ : ∃ cur, convo.get? i = some cur :=
      ⟨convo.get ⟨i, by omega⟩, List.get?_eq_get (by omega)⟩
    obtain ⟨nxt, hnxt⟩ : ∃ nxt, convo.get? (i + 1) = some nxt :=
      ⟨convo.get ⟨i + 1, hi⟩, List.get?_eq_get hi⟩
    rw [hcur, hnxt]
    obtain ⟨tail, ht⟩ : ∃ tail, qaGo convo rest = some tail :=
      Option.isSome_iff_exists.mp (ih (fun j hj => hall j (by simp [hj])))
    rw [ht]
    rfl

theorem slackTryBody_isSome (text : PyStr) : (slackTryBody text).isSome = true := by
  unfold slackTryBody
  dsimp only
  set r := turnLoop (pySplit text (("\n").data)) [] none [] [] with hr
  set convo := (if speakerTruthy r.2.1 ∧ r.2.2.1 ≠ [] then
      r.1 ++ [⟨(match r.2.1 with | some s => s | none => []), joinNL r.2.2.1⟩]
    else r.1) with hconvo
  have hqa : (qaLoop convo).isSome = true := by
    unfold qaLoop
    apply qaGo_isSome
    intro i hi
    have := List.mem_range.mp hi
    omega
  obtain ⟨qas, hq⟩ := Option.isSome_iff_exists.mp hqa
  rw [hq]
  rfl

end SlackConversationProcessor

/-- Claim C8: both structurer `try` bodies are total — every guarded
indexing operation is in range, so no exception can escape — and the
`except` handlers return a report whose `enhanced_text` is exactly the
original input text. -/
theorem structurer_never_raises_and_fails_open :
    (∀ text : PyStr, (PDFTextProcessor.pdfTryBody text).isSome = true) ∧
    (∀ text : PyStr, (SlackConversationProcessor.slackTryBody text).isSome = true) ∧
    (∀ text : PyStr,
      (PDFTextProcessor.pdfExceptReport text).enhanced_text = text ∧
      (SlackConversationProcessor.slackExceptReport text).enhanced_text = text) :=
  ⟨PDFTextProcessor.pdfTryBody_isSome,
   SlackConversationProcessor.slackTryBody_isSome,
   fun _ => ⟨rfl, rfl⟩⟩
